import Mathlib

/-!
Verification of the live-update subscription engine of the rust-sdk client
library.  The development shallowly embeds the two transports implemented in
`src/services/realtime.rs` (server-push event stream) and
`src/services/pubsub.rs` (bidirectional socket):

* a JSON value model (`Json`) mirroring `serde_json::Value` (floats are left
  out of the model; numbers are modelled as integers), with the exact
  `serde_json::to_string` serialization (sorted object keys as in the default
  `BTreeMap`-backed `serde_json::Map`, string escaping, no whitespace) and a
  fuel-based parser used both as the model of `serde_json::from_str` and as a
  round-trip witness that the serialization is injective;
* `urlencoding::encode` (UTF-8 percent-encoding with uppercase hex);
* the subscription key builder, the subscription registries of both services
  and their operations, the push-stream line parser, the event dispatcher,
  and the reconnect loops of both transports.

Listener callbacks are modelled as functions returning `Option Unit`; a
`none` result stands for a callback that panics, and the per-invocation
`std::panic::catch_unwind` boundary of the source is modelled by recording
the result and discarding it.
-/

/-- Model of `serde_json::Value`.  `Number` is modelled by `Int` (floating
point numbers are outside the model); `Object` is an association list which
is kept sorted by key wherever the source uses `serde_json::Map`
(a `BTreeMap` in the default configuration). -/
inductive Json where
  | null
  | bool (b : Bool)
  | num (n : Int)
  | str (s : String)
  | arr (xs : List Json)
  | obj (kvs : List (String × Json))

/-- Byte-lexicographic comparison of strings as lists of characters.  For
valid UTF-8 this coincides with the `Ord` instance of Rust's `String`, which
orders the keys of a `BTreeMap`-backed `serde_json::Map`. -/
def lexLt : List Char → List Char → Bool
  | [], [] => false
  | [], _ :: _ => true
  | _ :: _, [] => false
  | a :: as, b :: bs =>
    if a.toNat < b.toNat then true
    else if a.toNat = b.toNat then lexLt as bs
    else false

/-- Insertion into a key-sorted association list, replacing an existing
binding of the same key: the effect of `BTreeMap::insert`. -/
def sIns (kv : String × α) : List (String × α) → List (String × α)
  | [] => [kv]
  | x :: xs =>
    if lexLt kv.1.data x.1.data then kv :: x :: xs
    else if kv.1 = x.1 then kv :: xs
    else x :: sIns kv xs

/-- Building a `BTreeMap` by inserting the entries of an (arbitrarily
ordered) map iteration one by one: the canonical, order-insensitive form of
the `query` / `headers` hash maps. -/
def canonMap (l : List (String × α)) : List (String × α) :=
  l.foldl (fun acc kv => sIns kv acc) []

/-- Concatenation of the images of a list under a list-valued function. -/
def concatMapF (f : α → List β) : List α → List β
  | [] => []
  | a :: l => f a ++ concatMapF f l

/-- The escape sequence `serde_json` emits for one character inside a JSON
string literal: `"` and `\` are backslash-escaped, the five named control
characters use their short forms, the remaining control characters use
`\u00XX` with lowercase hex digits, and every other character is emitted
verbatim. -/
def escChar (c : Char) : List Char :=
  if c = '"' then ['\\', '"']
  else if c = '\\' then ['\\', '\\']
  else if c = '\x08' then ['\\', 'b']
  else if c = '\x09' then ['\\', 't']
  else if c = '\x0a' then ['\\', 'n']
  else if c = '\x0c' then ['\\', 'f']
  else if c = '\x0d' then ['\\', 'r']
  else if c.toNat < 32 then
    ['\\', 'u', '0', '0', Nat.digitChar (c.toNat / 16), Nat.digitChar (c.toNat % 16)]
  else [c]

/-- Decimal digits of a natural number, most significant first. -/
def natChars (n : Nat) : List Char :=
  if _h : n < 10 then [Nat.digitChar n]
  else natChars (n / 10) ++ [Nat.digitChar (n % 10)]
decreasing_by exact Nat.div_lt_self (by omega) (by omega)

/-- Decimal rendering of an integer, as `Display` for `i64` produces it. -/
def intChars (n : Int) : List Char :=
  if n < 0 then '-' :: natChars n.natAbs else natChars n.toNat

mutual

/-- Characters of `serde_json::to_string`: no whitespace, strings escaped via
`escChar`, object fields in list order (the key-sorted `BTreeMap` order of
the maps the key builder constructs). -/
def serChars : Json → List Char
  | .null => 'n' :: ['u', 'l', 'l']
  | .bool true => 't' :: ['r', 'u', 'e']
  | .bool false => 'f' :: ['a', 'l', 's', 'e']
  | .num n => intChars n
  | .str s => '"' :: concatMapF escChar s.data ++ ['"']
  | .arr xs => '[' :: serElemsChars xs ++ [']']
  | .obj kvs => '\x7b' :: serFieldsChars kvs ++ ['\x7d']

/-- Comma-separated serialization of array elements. -/
def serElemsChars : List Json → List Char
  | [] => []
  | [x] => serChars x
  | x :: y :: xs => serChars x ++ ',' :: serElemsChars (y :: xs)

/-- Comma-separated serialization of object fields (`"key":value`). -/
def serFieldsChars : List (String × Json) → List Char
  | [] => []
  | [(k, v)] => '"' :: concatMapF escChar k.data ++ '"' :: ':' :: serChars v
  | (k, v) :: y :: xs =>
    ('"' :: concatMapF escChar k.data ++ '"' :: ':' :: serChars v) ++ ',' :: serFieldsChars (y :: xs)

end

/-- String form of the serialization. -/
def serJson (j : Json) : String := ⟨serChars j⟩

/-- Characters that `urlencoding::encode` passes through unchanged:
ASCII alphanumerics and `-`, `.`, `_`, `~`. -/
def isUriAllowedChar (c : Char) : Bool :=
  decide ((65 ≤ c.toNat ∧ c.toNat ≤ 90) ∨ (97 ≤ c.toNat ∧ c.toNat ≤ 122) ∨
    (48 ≤ c.toNat ∧ c.toNat ≤ 57) ∨ c.toNat = 45 ∨ c.toNat = 46 ∨ c.toNat = 95 ∨ c.toNat = 126)

/-- UTF-8 bytes of a code point. -/
def utf8Bytes (n : Nat) : List Nat :=
  if n < 128 then [n]
  else if n < 2048 then [192 + n / 64, 128 + n % 64]
  else if n < 65536 then [224 + n / 4096, 128 + (n / 64) % 64, 128 + n % 64]
  else [240 + n / 262144, 128 + (n / 4096) % 64, 128 + (n / 64) % 64, 128 + n % 64]

/-- Uppercase hex digit, as the `%XX` escapes of `urlencoding::encode` use. -/
def hexUpperChar : Nat → Char
  | 0 => '0' | 1 => '1' | 2 => '2' | 3 => '3' | 4 => '4'
  | 5 => '5' | 6 => '6' | 7 => '7' | 8 => '8' | 9 => '9'
  | 10 => 'A' | 11 => 'B' | 12 => 'C' | 13 => 'D' | 14 => 'E' | 15 => 'F'
  | _ => '0'

/-- Percent-escape of one byte. -/
def pctByteChars (b : Nat) : List Char := ['%', hexUpperChar (b / 16), hexUpperChar (b % 16)]

/-- Encoding of one character: allowed characters pass through, all others
are replaced by the percent-escapes of their UTF-8 bytes. -/
def encodeChar (c : Char) : List Char :=
  if isUriAllowedChar c then [c] else concatMapF pctByteChars (utf8Bytes c.toNat)

/-- Model of `urlencoding::encode`. -/
def urlencode (s : String) : String := ⟨concatMapF encodeChar s.data⟩

/-- The JSON object values of the `headers` map (`Value::String` per entry). -/
def headerJson (headers : List (String × String)) : List (String × Json) :=
  headers.map (fun kv => (kv.1, Json.str kv.2))

/-- The `options` object of `build_subscription_key`: a `query` sub-object
when the query map is non-empty and a `headers` sub-object when the header
map is non-empty, all maps in canonical (`BTreeMap`) form. -/
def optionsObj (query : List (String × Json)) (headers : List (String × String)) :
    List (String × Json) :=
  canonMap
    ((if query.isEmpty then [] else [("query", Json.obj (canonMap query))]) ++
      (if headers.isEmpty then [] else [("headers", Json.obj (canonMap (headerJson headers)))]))

/-- Model of `RealtimeService::build_subscription_key`: the topic, optionally
followed by `options=<url-encoded-json>` behind `?` (or behind `&` when the
topic itself already contains a `?`). -/
def buildSubscriptionKey (topic : String) (query : List (String × Json))
    (headers : List (String × String)) : String :=
  let options := optionsObj query headers
  if options.isEmpty then topic
  else
    let suffix := "options=" ++ urlencode (serJson (Json.obj options))
    if topic.data.contains '?' then topic ++ "&" ++ suffix else topic ++ "?" ++ suffix

/-- Whitespace accepted between JSON tokens by `serde_json`. -/
def isJsonWs (c : Char) : Bool := c = ' ' || c = '\t' || c = '\n' || c = '\r'

/-- Skip inter-token whitespace. -/
def skipWs (s : List Char) : List Char := s.dropWhile isJsonWs

/-- A decimal digit character. -/
def isDigitC (c : Char) : Bool := decide (48 ≤ c.toNat ∧ c.toNat ≤ 57)

/-- Longest digit run at the head of the input, and the rest. -/
def spanDigits : List Char → List Char × List Char
  | [] => ([], [])
  | c :: r =>
    if isDigitC c then
      let p := spanDigits r
      (c :: p.1, p.2)
    else ([], c :: r)

/-- Value of a digit run (most significant first). -/
def digitsToNat (ds : List Char) : Nat := ds.foldl (fun a c => 10 * a + (c.toNat - 48)) 0

/-- Value of a hex digit character, if it is one. -/
def hexVal (c : Char) : Option Nat :=
  if 48 ≤ c.toNat ∧ c.toNat ≤ 57 then some (c.toNat - 48)
  else if 97 ≤ c.toNat ∧ c.toNat ≤ 102 then some (c.toNat - 87)
  else if 65 ≤ c.toNat ∧ c.toNat ≤ 70 then some (c.toNat - 55)
  else none

/-- Body of a JSON string literal (the opening quote already consumed):
returns the decoded characters and the input after the closing quote. -/
def parseStrAux : List Char → Option (List Char × List Char)
  | [] => none
  | c :: r =>
    if c = '"' then some ([], r)
    else if c = '\\' then
      match r with
      | [] => none
      | e :: r₂ =>
        if e = '"' then (parseStrAux r₂).map (fun p => ('"' :: p.1, p.2))
        else if e = '\\' then (parseStrAux r₂).map (fun p => ('\\' :: p.1, p.2))
        else if e = '/' then (parseStrAux r₂).map (fun p => ('/' :: p.1, p.2))
        else if e = 'b' then (parseStrAux r₂).map (fun p => ('\x08' :: p.1, p.2))
        else if e = 't' then (parseStrAux r₂).map (fun p => ('\x09' :: p.1, p.2))
        else if e = 'n' then (parseStrAux r₂).map (fun p => ('\x0a' :: p.1, p.2))
        else if e = 'f' then (parseStrAux r₂).map (fun p => ('\x0c' :: p.1, p.2))
        else if e = 'r' then (parseStrAux r₂).map (fun p => ('\x0d' :: p.1, p.2))
        else if e = 'u' then
          match r₂ with
          | h₁ :: h₂ :: h₃ :: h₄ :: r₃ =>
            match hexVal h₁, hexVal h₂, hexVal h₃, hexVal h₄ with
            | some a, some b, some c', some d =>
              (parseStrAux r₃).map
                (fun p => (Char.ofNat (4096 * a + 256 * b + 16 * c' + d) :: p.1, p.2))
            | _, _, _, _ => none
          | _ => none
        else none
    else (parseStrAux r).map (fun p => (c :: p.1, p.2))

/-- Literal-keyword helper: consume the expected characters. -/
def expectChars (lit : List Char) (s : List Char) : Option (List Char) :=
  if lit.isPrefixOf s then some (s.drop lit.length) else none

mutual

/-- Fuel-based JSON value parser.  On the outputs of `serChars` it is an
exact inverse (proved below), which also makes the serialization injective;
it doubles as the model of `serde_json::from_str` for event payloads (with
the same tolerance: any parse failure is handled by the caller). -/
def parseVal : Nat → List Char → Option (Json × List Char)
  | 0, _ => none
  | f + 1, s =>
    match skipWs s with
    | [] => none
    | c :: r =>
      if c = 'n' then (expectChars ['u', 'l', 'l'] r).map (fun r' => (Json.null, r'))
      else if c = 't' then (expectChars ['r', 'u', 'e'] r).map (fun r' => (Json.bool true, r'))
      else if c = 'f' then (expectChars ['a', 'l', 's', 'e'] r).map (fun r' => (Json.bool false, r'))
      else if c = '"' then (parseStrAux r).map (fun p => (Json.str ⟨p.1⟩, p.2))
      else if c = '[' then parseElems f r
      else if c = '\x7b' then parseFields f r
      else if c = '-' then
        match spanDigits r with
        | ([], _) => none
        | (ds, r') => some (Json.num (-(digitsToNat ds : Int)), r')
      else if isDigitC c then
        let p := spanDigits (c :: r)
        some (Json.num (digitsToNat p.1), p.2)
      else none

/-- Array elements after `[`. -/
def parseElems : Nat → List Char → Option (Json × List Char)
  | 0, _ => none
  | f + 1, s =>
    match skipWs s with
    | [] => none
    | c :: r =>
      if c = ']' then some (Json.arr [], r)
      else
        match parseVal f (c :: r) with
        | none => none
        | some (j, rest) =>
          match skipWs rest with
          | [] => none
          | c₂ :: rest₂ =>
            if c₂ = ',' then
              (parseElems f rest₂).map
                (fun p => match p.1 with
                  | Json.arr xs => (Json.arr (j :: xs), p.2)
                  | other => (other, p.2))
            else if c₂ = ']' then some (Json.arr [j], rest₂)
            else none

/-- Object fields after the opening brace. -/
def parseFields : Nat → List Char → Option (Json × List Char)
  | 0, _ => none
  | f + 1, s =>
    match skipWs s with
    | [] => none
    | c :: r =>
      if c = '\x7d' then some (Json.obj [], r)
      else if c = '"' then
        match parseStrAux r with
        | none => none
        | some (kcs, rest) =>
          match skipWs rest with
          | [] => none
          | c₂ :: rest₂ =>
            if c₂ = ':' then
              match parseVal f rest₂ with
              | none => none
              | some (v, rest₃) =>
                match skipWs rest₃ with
                | [] => none
                | c₄ :: rest₄ =>
                  if c₄ = ',' then
                    (parseFields f rest₄).map
                      (fun p => match p.1 with
                        | Json.obj kvs => (Json.obj ((⟨kcs⟩, v) :: kvs), p.2)
                        | other => (other, p.2))
                  else if c₄ = '\x7d' then some (Json.obj [(⟨kcs⟩, v)], rest₄)
                  else none
            else none
      else none

end

mutual

/-- Fuel bound sufficient for `parseVal` on a serialized value. -/
def jsize : Json → Nat
  | .arr xs => 1 + jsizeElems xs
  | .obj kvs => 1 + jsizeFields kvs
  | _ => 1

/-- Fuel bound for `parseElems` on serialized elements. -/
def jsizeElems : List Json → Nat
  | [] => 1
  | x :: xs => jsize x + jsizeElems xs

/-- Fuel bound for `parseFields` on serialized fields. -/
def jsizeFields : List (String × Json) → Nat
  | [] => 1
  | kv :: kvs => jsize kv.2 + jsizeFields kvs

end

/-- Model of `serde_json::from_str::<Value>`: parse a complete JSON document
(trailing whitespace allowed, anything else rejected). -/
def parseJsonStr (s : String) : Option Json :=
  match parseVal (s.data.length + 1) s.data with
  | some (j, rest) => if (skipWs rest).isEmpty then some j else none
  | none => none

/-- Lookup in an association list (the read side of the `HashMap`s and of
JSON objects). -/
def lookupList (k : String) : List (String × α) → Option α
  | [] => none
  | kv :: rest => if kv.1 = k then some kv.2 else lookupList k rest

/-- Field lookup on a JSON value (`Value::get` for objects, `None` otherwise). -/
def jGet (j : Json) (k : String) : Option Json :=
  match j with
  | .obj kvs => lookupList k kvs
  | _ => none

/-- `Value::as_str`. -/
def jAsStr : Json → Option String
  | .str s => some s
  | _ => none

/-- Model of `ClientResponseError::new` (the original-error slot, always
`None` at the construction sites modelled here, is omitted). -/
structure ClientResponseError where
  url : String
  status : Nat
  response : Json
  isAbort : Bool

/-- The error both services return for an empty topic. -/
def topicMustBeSetErr : ClientResponseError :=
  ⟨"", 400, Json.obj [("message", Json.str "topic must be set")], false⟩

/-- The error `ensure_connected` returns when the readiness flag is not set
within the bounded wait. -/
def connectionNotEstablishedErr : ClientResponseError :=
  ⟨"", 0, Json.obj [("message", Json.str "Realtime connection not established")], true⟩

/-- The bound (in milliseconds) `RealtimeService::subscribe` passes to
`ensure_connected` (`Duration::from_secs(10)`). -/
def realtimeConnectWaitMs : Nat := 10000

/-- A registered push-stream listener: generated id plus callback.  A `none`
callback result models a panic, absorbed by `catch_unwind` at dispatch. -/
structure RealtimeListener where
  id : String
  callback : Json → Option Unit

/-- The subscription registry: subscription key to the ordered listener
list, as an association list standing for the `HashMap` (one entry per key). -/
abbrev RtRegistry := List (String × List RealtimeListener)

/-- The shared mutable state of `RealtimeService` relevant to the claims:
session id, readiness flag and registry. -/
structure RtState where
  clientId : String
  ready : Bool
  subscriptions : RtRegistry

/-- Observable outward actions of the push-stream service: the `POST
/api/realtime` resubscription request, and tearing the connection down
(`disconnect`, which sends nothing to the server). -/
inductive RtEffect where
  | submitSubs (clientId : String) (subs : List String)
  | disconnect
deriving DecidableEq

/-- Key set of a registry, in iteration order. -/
def registryKeys (subs : List (String × α)) : List String := subs.map Prod.fst

/-- `entry(key).or_default().push(l)`: append a listener to the key's list,
creating the entry if needed. -/
def addListener (subs : List (String × List α)) (key : String) (l : α) :
    List (String × List α) :=
  if subs.any (fun kv => kv.1 == key) then
    subs.map (fun kv => if kv.1 == key then (kv.1, kv.2 ++ [l]) else kv)
  else subs ++ [(key, [l])]

/-- A registry key belongs to a topic when it equals the topic or starts
with `topic?` (the option-suffixed variants). -/
def topicMatchesKey (topic key : String) : Bool :=
  key == topic || (topic ++ "?").data.isPrefixOf key.data

/-- `submit_subscriptions` / `submit_subscriptions_inner`: one `POST
/api/realtime` carrying the client id and the entire current key set,
skipped when the client id is empty or the registry is empty. -/
def submitEffects (st : RtState) : List RtEffect :=
  if st.clientId = "" || st.subscriptions.isEmpty then []
  else [.submitSubs st.clientId (registryKeys st.subscriptions)]

/-- State change of `RealtimeService::disconnect`: session id cleared,
readiness flag reset (the supervisor is stopped and joined). -/
def applyRtDisconnect (st : RtState) : RtState := { st with clientId := "", ready := false }

/-- Shared tail of every push-stream removal operation: once the registry
mutation is done, disconnect when the registry emptied, resubmit the full
key set otherwise. -/
def rtAfterRemoval (st : RtState) : RtState × List RtEffect :=
  if st.subscriptions.isEmpty then (applyRtDisconnect st, [.disconnect])
  else (st, submitEffects st)

/-- The registry after `unsubscribe_by_topic_and_id` retains, per key of the
topic, the listeners whose id differs, dropping keys whose list empties. -/
def rtRemoveListener (subs : RtRegistry) (topic lid : String) : RtRegistry :=
  subs.filterMap (fun kv =>
    if topicMatchesKey topic kv.1 then
      (if (kv.2.filter (fun l => l.id != lid)).isEmpty then none
       else some (kv.1, kv.2.filter (fun l => l.id != lid)))
    else some kv)

/-- Model of `unsubscribe_by_topic_and_id`: remove the listener with the
given id from every key of the topic; when some key of the topic existed
(`changed`), disconnect if the registry emptied, else resubmit. -/
def unsubscribeByTopicAndId (st : RtState) (topic lid : String) :
    RtState × List RtEffect × Bool :=
  if st.subscriptions.any (fun kv => topicMatchesKey topic kv.1) then
    ((rtAfterRemoval { st with subscriptions := rtRemoveListener st.subscriptions topic lid }).1,
     (rtAfterRemoval { st with subscriptions := rtRemoveListener st.subscriptions topic lid }).2,
     true)
  else (st, [], false)

/-- Model of `RealtimeService::unsubscribe(Some topic)`: retain all keys not
belonging to the topic; disconnect if empty, else resubmit. -/
def rtUnsubscribeTopic (st : RtState) (topic : String) : RtState × List RtEffect :=
  rtAfterRemoval
    { st with subscriptions := st.subscriptions.filter (fun kv => !(topicMatchesKey topic kv.1)) }

/-- Model of `RealtimeService::unsubscribe(None)`: clear and disconnect. -/
def rtUnsubscribeAll (st : RtState) : RtState × List RtEffect :=
  (applyRtDisconnect { st with subscriptions := [] }, [.disconnect])

/-- Model of `unsubscribe_by_prefix`. -/
def rtUnsubscribeByKeyStart (st : RtState) (pre : String) : RtState × List RtEffect :=
  rtAfterRemoval
    { st with subscriptions := st.subscriptions.filter (fun kv => !(pre.data.isPrefixOf kv.1.data)) }

/-- Result of `RealtimeService::subscribe`: the state afterwards, emitted
effects, and either the captured data of the unsubscribe closure
(topic and listener id) or an error. -/
structure RtSubscribeOutcome where
  state : RtState
  effects : List RtEffect
  result : Except ClientResponseError (String × String)

/-- The registry insertion `RealtimeService::subscribe` performs before
`ensure_connected`; in `rtSubscribe` below, `st.ready` is the value of the
readiness flag when the bounded wait (of `realtimeConnectWaitMs`) ends, so
`ready = false` is the timeout path, which returns the connection error
without undoing this registration. -/
def rtWithListener (st : RtState) (topic : String) (query : List (String × Json))
    (headers : List (String × String)) (l : RealtimeListener) : RtState :=
  { st with subscriptions :=
      addListener st.subscriptions (buildSubscriptionKey topic query headers) l }

/-- Model of `RealtimeService::subscribe` proper. -/
def rtSubscribe (st : RtState) (topic : String) (query : List (String × Json))
    (headers : List (String × String)) (l : RealtimeListener) : RtSubscribeOutcome :=
  if topic = "" then ⟨st, [], .error topicMustBeSetErr⟩
  else if st.ready then
    ⟨rtWithListener st topic query headers l,
      submitEffects (rtWithListener st topic query headers l), .ok (topic, l.id)⟩
  else ⟨rtWithListener st topic query headers l, [], .error connectionNotEstablishedErr⟩

/-- An accumulated push-stream frame (`Event` in the source). -/
structure SseEvent where
  event : String
  data : String
  id : String

/-- The empty accumulator the read loop starts from and resets to. -/
def emptySseEvent : SseEvent := ⟨"", "", ""⟩

/-- Dispatch name of a frame: the accumulated event name, defaulting to
`message`. -/
def eventName (evt : SseEvent) : String := if evt.event = "" then "message" else evt.event

/-- `trim_end_matches('\n')`. -/
def dropTrailingNl (s : String) : String :=
  ⟨(s.data.reverse.dropWhile (fun c => c = '\n')).reverse⟩

/-- `str::trim` (whitespace stripped from both ends). -/
def trimStr (s : String) : String :=
  ⟨((s.data.dropWhile Char.isWhitespace).reverse.dropWhile Char.isWhitespace).reverse⟩

/-- Payload of a frame: empty object when the accumulated data is blank or
unparseable, otherwise its parsed JSON (trailing newlines stripped). -/
def eventPayload (evt : SseEvent) : Json :=
  if trimStr evt.data = "" then Json.obj []
  else
    match parseJsonStr (dropTrailingNl evt.data) with
    | some v => v
    | none => Json.obj []

/-- Session identifier carried by a handshake frame: the payload's
`clientId` string field, or the frame id when that is absent and the frame
id is non-empty. -/
def extractClientId (evt : SseEvent) : Option String :=
  match (jGet (eventPayload evt) "clientId").bind jAsStr with
  | some s => some s
  | none => if evt.id = "" then none else some evt.id

/-- Result of dispatching one frame: new state, emitted effects, and the
listener invocations performed (listener id with its callback's outcome;
panics are absorbed, so the outcome is recorded and dropped). -/
structure RtDispatchOutcome where
  state : RtState
  effects : List RtEffect
  invocations : List (String × Option Unit)

/-- Model of `dispatch_event`: a `PB_CONNECT` frame stores the session id,
sets readiness and resubmits the whole key set; any other frame is fanned
out to the listeners registered under the exact event name, each invocation
wrapped in `catch_unwind`. -/
def dispatchEvent (st : RtState) (evt : SseEvent) : RtDispatchOutcome :=
  let name := eventName evt
  if name = "PB_CONNECT" then
    let st' :=
      match extractClientId evt with
      | some c => { st with clientId := c, ready := true }
      | none => st
    ⟨st', submitEffects st', []⟩
  else
    let payload := eventPayload evt
    let ls := (lookupList name st.subscriptions).getD []
    ⟨st, [], ls.map (fun l => (l.id, l.callback payload))⟩

/-- `trim_end_matches(&['\r', '\n'])` applied to a raw line. -/
def stripCrLf (s : String) : String :=
  ⟨(s.data.reverse.dropWhile (fun c => c = '\r' || c = '\n')).reverse⟩

/-- `split_once(':')`: the characters before the first colon and those after
it, when a colon occurs. -/
def splitOnceColonAux : List Char → Option (List Char × List Char)
  | [] => none
  | c :: r =>
    if c = ':' then some ([], r)
    else (splitOnceColonAux r).map (fun p => (c :: p.1, p.2))

/-- `str::trim_start`. -/
def trimStartStr (s : String) : String := ⟨s.data.dropWhile Char.isWhitespace⟩

/-- Field routing of the push-stream line parser: `event` sets the name
(empty value falls back to `message`), `data` appends a newline-terminated
line, `id` records the identifier, anything else is ignored. -/
def applyField (ev : SseEvent) (field value : String) : SseEvent :=
  if field = "event" then { ev with event := if value = "" then "message" else value }
  else if field = "data" then { ev with data := ev.data ++ value ++ "\n" }
  else if field = "id" then { ev with id := value }
  else ev

/-- Model of the line loop of `listen`, producing the frames handed to
`dispatch_event`: a blank line finalizes the accumulator (and resets it), a
comment line is skipped, any other line is split at the first colon, its
value start-trimmed, and routed; end of input dispatches nothing. -/
def processLines (ev : SseEvent) : List String → List SseEvent
  | [] => []
  | raw :: rest =>
    let line := stripCrLf raw
    if line = "" then ev :: processLines emptySseEvent rest
    else if line.data.head? = some ':' then processLines ev rest
    else
      match splitOnceColonAux line.data with
      | some (f, v) => processLines (applyField ev ⟨f⟩ (trimStartStr ⟨v⟩)) rest
      | none => processLines ev rest

/-- Dispatching a sequence of frames in order, threading the state. -/
def dispatchAll (st : RtState) : List SseEvent → RtState × List RtEffect × List (String × Option Unit)
  | [] => (st, [], [])
  | e :: es =>
    let d := dispatchEvent st e
    let rest := dispatchAll d.state es
    (rest.1, d.effects ++ rest.2.1, d.invocations ++ rest.2.2)

/-- A full pass of `listen` over the raw lines of a connection. -/
def listenRun (st : RtState) (lines : List String) :
    RtState × List RtEffect × List (String × Option Unit) :=
  dispatchAll st (processLines emptySseEvent lines)

/-- Outcome of one connection attempt of a reconnect loop: the open fails,
or it succeeds and the read loop later ends (read error or remote close). -/
inductive ConnOutcome where
  | openFail
  | openOkThenDrop
deriving DecidableEq

/-- Externally visible scheduling events of a reconnect loop. -/
inductive LoopEv where
  | attemptOpen
  | sleepMs (ms : Nat)
deriving DecidableEq

/-- The push-stream backoff table of `run_loop`. -/
def backoffScheduleMs : List Nat := [200, 500, 1000, 2000, 5000]

/-- `backoff[min(attempt, backoff.len() - 1)]`. -/
def backoffDelay (attempt : Nat) : Nat :=
  backoffScheduleMs.getD (min attempt (backoffScheduleMs.length - 1)) 0

/-- Scheduling trace of `run_loop` over a script of connection outcomes
(while the stop flag stays unset and the registry non-empty): a failed open
sleeps the indexed backoff delay and bumps the consecutive-failure counter;
a successful open resets the counter and, once the stream drops, loops
straight into the next attempt with no sleep. -/
def runLoopEvents (attempt : Nat) : List ConnOutcome → List LoopEv
  | [] => []
  | .openFail :: rest =>
    .attemptOpen :: .sleepMs (backoffDelay attempt) :: runLoopEvents (attempt + 1) rest
  | .openOkThenDrop :: rest => .attemptOpen :: runLoopEvents 0 rest

/-- The fixed delay of the socket transport's reconnect loop. -/
def socketReconnectDelayMs : Nat := 300

/-- Scheduling trace of `socket_loop`: a fixed sleep between any two
consecutive attempts (after the final attempt the loop exits on the stop
flag or the emptied registry, without sleeping). -/
def socketLoopEvents : List ConnOutcome → List LoopEv
  | [] => []
  | [_] => [.attemptOpen]
  | _ :: o :: rest => .attemptOpen :: .sleepMs socketReconnectDelayMs :: socketLoopEvents (o :: rest)

/-- The property claimed of the loops: every reconnect (every attempt after
the first within one supervisor run) is immediately preceded by a sleep. -/
def DelayPrecedesReconnects (evs : List LoopEv) : Prop :=
  ∀ i, evs.get? (i + 1) = some .attemptOpen → ∃ d, evs.get? i = some (.sleepMs d)

/-- A message delivered (or synthesized by `publish`) on the socket
transport. -/
structure PubSubMessage where
  id : String
  topic : String
  created : String
  data : Json

/-- State of `PubSubService` relevant to the claims.  The callback type is a
parameter: registry operations never inspect callbacks. -/
structure PsState (CB : Type) where
  subscriptions : List (String × List CB)
  ready : Bool

/-- Observable outward actions of the socket service: queueing an envelope
on the outbound channel, and tearing the socket down. -/
inductive PsEffect where
  | sendEnvelope (payload : Json)
  | disconnect

/-- The envelope of an effect, when it is one. -/
def envelopeOf : PsEffect → Option Json
  | .sendEnvelope e => some e
  | .disconnect => none

/-- `json!({"type": "subscribe", "topic": topic})` (keys in the sorted order
the `BTreeMap`-backed map serializes them). -/
def subscribeEnvelope (topic : String) : Json :=
  Json.obj [("topic", Json.str topic), ("type", Json.str "subscribe")]

/-- `json!({"type": "unsubscribe", "topic": topic})`. -/
def unsubscribeEnvelopeFor (topic : String) : Json :=
  Json.obj [("topic", Json.str topic), ("type", Json.str "unsubscribe")]

/-- `json!({"type": "unsubscribe"})`. -/
def unsubscribeAllEnvelope : Json := Json.obj [("type", Json.str "unsubscribe")]

/-- `json!({"type": "publish", "topic": topic, "data": data})`. -/
def publishEnvelope (topic : String) (data : Json) : Json :=
  Json.obj [("data", data), ("topic", Json.str topic), ("type", Json.str "publish")]

/-- Drop the entry of a key (`HashMap::remove`). -/
def removeKeyList (subs : List (String × α)) (k : String) : List (String × α) :=
  subs.filter (fun kv => kv.1 != k)

/-- Replace the listener list of a key. -/
def setKeyList (subs : List (String × List α)) (k : String) (ls : List α) :
    List (String × List α) :=
  subs.map (fun kv => if kv.1 == k then (kv.1, ls) else kv)

/-- Result of `PubSubService::subscribe`: state, effects, and the topic the
returned unsubscribe closure captures (or the empty-topic error). -/
structure PsSubscribeOutcome (CB : Type) where
  state : PsState CB
  effects : List PsEffect
  result : Except ClientResponseError String

/-- Model of `PubSubService::subscribe`: push the callback onto the topic's
list (creating the entry if needed) and, when it is the first listener of
the topic, queue one `subscribe` envelope. -/
def psSubscribe (st : PsState CB) (topic : String) (cb : CB) : PsSubscribeOutcome CB :=
  if topic = "" then ⟨st, [], .error topicMustBeSetErr⟩
  else
    let firstListener := ((lookupList topic st.subscriptions).getD []).isEmpty
    let st₁ := { st with subscriptions := addListener st.subscriptions topic cb }
    let effs := if firstListener then [PsEffect.sendEnvelope (subscribeEnvelope topic)] else []
    ⟨st₁, effs, .ok topic⟩

/-- The pop step of the unsubscribe closure: remove the topic's last
listener (when any); the flag records whether the entry emptied and was
removed (so that one `unsubscribe` envelope must be queued). -/
def psUnsubPop {CB : Type} (st : PsState CB) (topic : String) :
    List (String × List CB) × Bool :=
  match lookupList topic st.subscriptions with
  | none => (st.subscriptions, false)
  | some ls =>
    if (if ls.isEmpty then ls else ls.dropLast).isEmpty then
      (removeKeyList st.subscriptions topic, true)
    else (setKeyList st.subscriptions topic (if ls.isEmpty then ls else ls.dropLast), false)

/-- Model of the closure `PubSubService::subscribe` returns: pop the topic's
last listener (when any), drop the entry and queue one `unsubscribe`
envelope when the list empties, and disconnect when the whole registry is
empty afterwards. -/
def psUnsubClosure (st : PsState CB) (topic : String) : PsState CB × List PsEffect :=
  if (psUnsubPop st topic).1.isEmpty then
    ({ subscriptions := (psUnsubPop st topic).1, ready := false },
      (if (psUnsubPop st topic).2 then [PsEffect.sendEnvelope (unsubscribeEnvelopeFor topic)]
       else []) ++ [.disconnect])
  else
    ({ st with subscriptions := (psUnsubPop st topic).1 },
      if (psUnsubPop st topic).2 then [PsEffect.sendEnvelope (unsubscribeEnvelopeFor topic)]
      else [])

/-- Model of `PubSubService::unsubscribe`: drop one topic (queueing its
`unsubscribe` envelope) or everything (queueing the bare `unsubscribe`
envelope); disconnect when the registry is empty afterwards. -/
def psUnsubscribe (st : PsState CB) (t? : Option String) : PsState CB × List PsEffect :=
  match t? with
  | some t =>
    if (removeKeyList st.subscriptions t).isEmpty then
      ({ subscriptions := removeKeyList st.subscriptions t, ready := false },
        [PsEffect.sendEnvelope (unsubscribeEnvelopeFor t), .disconnect])
    else ({ st with subscriptions := removeKeyList st.subscriptions t },
      [PsEffect.sendEnvelope (unsubscribeEnvelopeFor t)])
  | none =>
    ({ subscriptions := [], ready := false },
      [PsEffect.sendEnvelope unsubscribeAllEnvelope, .disconnect])

/-- Model of `PubSubService::publish`: empty topic fails fast; otherwise one
`publish` envelope is queued and a locally synthesized message (empty `id`
and `created`, the arguments echoed) is returned without waiting for any
server acknowledgment. -/
def psPublish (st : PsState CB) (topic : String) (data : Json) :
    PsState CB × List PsEffect × Except ClientResponseError PubSubMessage :=
  if topic = "" then (st, [], .error topicMustBeSetErr)
  else
    (st, [PsEffect.sendEnvelope (publishEnvelope topic data)],
      .ok ⟨"", topic, "", data⟩)

/-- Socket listener callbacks. -/
abbrev PsCallback := PubSubMessage → Option Unit

/-- Model of `handle_message`: parse the inbound text frame (malformed JSON
degrades to an empty object), build the message, and invoke every listener
of its topic inside a `catch_unwind` boundary (outcomes recorded, dropped). -/
def psHandleMessage (subs : List (String × List PsCallback)) (payload : String) :
    PubSubMessage × List (Option Unit) :=
  let parsed := (parseJsonStr payload).getD (Json.obj [])
  let topic := ((jGet parsed "topic").bind jAsStr).getD ""
  let msg : PubSubMessage :=
    ⟨((jGet parsed "id").bind jAsStr).getD "", topic,
      ((jGet parsed "created").bind jAsStr).getD "", (jGet parsed "data").getD Json.null⟩
  (msg, ((lookupList topic subs).getD []).map (fun cb => cb msg))

/-- The registry invariant: an entry exists iff its listener list is
non-empty. -/
def RegistryInv (subs : List (String × List α)) : Prop :=
  ∀ kv ∈ subs, kv.2 ≠ []

/-- The server request carried by a push-stream effect, when there is one
(`disconnect` carries none: it only tears the connection down). -/
def rtRequestOf : RtEffect → Option (String × List String)
  | .submitSubs c s => some (c, s)
  | .disconnect => none

/-! ### Registry lemmas -/

theorem lookup_map_addListener {α : Type} (subs : List (String × List α)) (k : String) (l : α)
    (h : subs.any (fun kv => kv.1 == k) = true) :
    ∃ old, lookupList k subs = some old ∧
      lookupList k (subs.map (fun kv => if kv.1 == k then (kv.1, kv.2 ++ [l]) else kv))
        = some (old ++ [l]) := by
  induction subs with
  | nil => simp at h
  | cons kv rest ih =>
    by_cases hk : kv.1 = k
    · exact ⟨kv.2, by simp [lookupList, hk], by simp [lookupList, hk]⟩
    · have h' : rest.any (fun kv => kv.1 == k) = true := by
        simp only [List.any_cons, Bool.or_eq_true, beq_iff_eq] at h
        rcases h with h | h
        · exact absurd h hk
        · simpa using h
      rcases ih h' with ⟨old, h₁, h₂⟩
      exact ⟨old, by simpa [lookupList, hk] using h₁, by simpa [lookupList, hk] using h₂⟩

theorem lookup_append_addListener {α : Type} (subs : List (String × List α)) (k : String) (l : α)
    (h : subs.any (fun kv => kv.1 == k) = false) :
    lookupList k (subs ++ [(k, [l])]) = some [l] := by
  induction subs with
  | nil => simp [lookupList]
  | cons kv rest ih =>
    simp only [List.any_cons, Bool.or_eq_false_iff, beq_eq_false_iff_ne] at h
    simpa [lookupList, h.1] using ih (by simpa using h.2)

theorem mem_lookup_addListener {α : Type} (subs : List (String × List α)) (k : String) (l : α) :
    l ∈ (lookupList k (addListener subs k l)).getD [] := by
  unfold addListener
  by_cases h : subs.any (fun kv => kv.1 == k) = true
  · rcases lookup_map_addListener subs k l h with ⟨old, _, h₂⟩
    rw [if_pos h, h₂]
    simp
  · have h' : subs.any (fun kv => kv.1 == k) = false := by
      cases hh : subs.any (fun kv => kv.1 == k) with
      | true => exact absurd hh h
      | false => rfl
    rw [if_neg h, lookup_append_addListener subs k l h']
    simp

/-! ### C10 -/

/-- C10: for every non-empty topic and any data, `PubSubService::publish`
returns `Ok` with a locally synthesized message whose `id` and `created`
are empty and whose `topic`/`data` echo the arguments; the state is
untouched and the only effect is queueing the `publish` envelope, so the
returned message never reflects a server acknowledgment. -/
theorem C10_publish_synthesized_message {CB : Type} (st : PsState CB) (topic : String)
    (data : Json) (h : topic ≠ "") :
    (psPublish st topic data).2.2 = .ok ⟨"", topic, "", data⟩ ∧
    (psPublish st topic data).1 = st ∧
    (psPublish st topic data).2.1 = [PsEffect.sendEnvelope (publishEnvelope topic data)] := by
  simp [psPublish, h]

theorem C10_publish_synthesized_message_witness :
    ("demo" : String) ≠ "" ∧
    (psPublish (⟨[], false⟩ : PsState Unit) "demo" (Json.str "x")).2.2
      = .ok ⟨"", "demo", "", Json.str "x"⟩ :=
  ⟨by decide, (C10_publish_synthesized_message (⟨[], false⟩ : PsState Unit) "demo"
    (Json.str "x") (by decide)).1⟩

/-! ### C9 -/

/-- C9: on the push-stream transport, `subscribe` with a non-empty topic
waits on the readiness flag for at most the 10-second bound; when readiness
is not reached it returns the connection error (status 0, abort flag set)
while the listener registration stays in the registry, so the listener is
found under its key and activates once a connection is established. -/
theorem C9_subscribe_timeout_no_rollback (st : RtState) (topic : String)
    (query : List (String × Json)) (headers : List (String × String)) (l : RealtimeListener)
    (htopic : topic ≠ "") (hready : st.ready = false) :
    realtimeConnectWaitMs = 10000 ∧
    (rtSubscribe st topic query headers l).result = .error connectionNotEstablishedErr ∧
    connectionNotEstablishedErr.status = 0 ∧
    connectionNotEstablishedErr.isAbort = true ∧
    (rtSubscribe st topic query headers l).state.subscriptions
      = addListener st.subscriptions (buildSubscriptionKey topic query headers) l ∧
    (rtSubscribe st topic query headers l).effects = [] ∧
    l ∈ (lookupList (buildSubscriptionKey topic query headers)
          (rtSubscribe st topic query headers l).state.subscriptions).getD [] := by
  refine ⟨rfl, ?_, rfl, rfl, ?_, ?_, ?_⟩ <;>
    simp [rtSubscribe, rtWithListener, htopic, hready, mem_lookup_addListener]

theorem C9_subscribe_timeout_no_rollback_witness :
    ("t" : String) ≠ "" ∧
    (rtSubscribe ⟨"", false, []⟩ "t" [] [] ⟨"l-1", fun _ => some ()⟩).result
      = .error connectionNotEstablishedErr ∧
    (rtSubscribe ⟨"", false, []⟩ "t" [] [] ⟨"l-1", fun _ => some ()⟩).effects = [] :=
  ⟨by decide,
    (C9_subscribe_timeout_no_rollback ⟨"", false, []⟩ "t" [] [] ⟨"l-1", fun _ => some ()⟩
      (by decide) rfl).2.1,
    (C9_subscribe_timeout_no_rollback ⟨"", false, []⟩ "t" [] [] ⟨"l-1", fun _ => some ()⟩
      (by decide) rfl).2.2.2.2.2.1⟩

/-! ### C1 -/

/-- C1: dispatching a handshake (`PB_CONNECT`) frame that carries a
non-empty session identifier stores the identifier, sets the readiness
flag, leaves the registry untouched, invokes no listeners, and submits the
entire current key set as exactly one resubscription request — skipped
precisely when the registry is empty at that moment. -/
theorem C1_handshake_stores_id_and_replays (st : RtState) (evt : SseEvent) (c : String)
    (hname : eventName evt = "PB_CONNECT") (hc : extractClientId evt = some c) (hne : c ≠ "") :
    (dispatchEvent st evt).state.clientId = c ∧
    (dispatchEvent st evt).state.ready = true ∧
    (dispatchEvent st evt).state.subscriptions = st.subscriptions ∧
    (dispatchEvent st evt).invocations = [] ∧
    (dispatchEvent st evt).effects =
      (if st.subscriptions.isEmpty then []
       else [.submitSubs c (registryKeys st.subscriptions)]) := by
  have hd : dispatchEvent st evt
      = ⟨{ st with clientId := c, ready := true },
          submitEffects { st with clientId := c, ready := true }, []⟩ := by
    simp [dispatchEvent, hname, hc]
  rw [hd]
  refine ⟨rfl, rfl, rfl, rfl, ?_⟩
  simp only [submitEffects, decide_eq_false hne, Bool.false_or]

theorem C1_handshake_stores_id_and_replays_witness :
    eventName ⟨"PB_CONNECT", "", "cid1"⟩ = "PB_CONNECT" ∧
    extractClientId ⟨"PB_CONNECT", "", "cid1"⟩ = some "cid1" ∧
    (dispatchEvent ⟨"", false, [("t", [⟨"l-1", fun _ => some ()⟩])]⟩
        ⟨"PB_CONNECT", "", "cid1"⟩).state.clientId = "cid1" ∧
    (dispatchEvent ⟨"", false, [("t", [⟨"l-1", fun _ => some ()⟩])]⟩
        ⟨"PB_CONNECT", "", "cid1"⟩).effects = [.submitSubs "cid1" ["t"]] := by
  have h := C1_handshake_stores_id_and_replays
    ⟨"", false, [("t", [⟨"l-1", fun _ => some ()⟩])]⟩ ⟨"PB_CONNECT", "", "cid1"⟩ "cid1"
    rfl rfl (by decide)
  exact ⟨rfl, rfl, h.1, by simpa using h.2.2.2.2⟩

/-! ### C2 -/

/-- C2 (code bug evidence): on the socket transport the unsubscribe closure
pops the most recently added listener of its topic rather than the one its
own `subscribe` call registered, and a second invocation keeps popping.
With listeners `1` then `2` registered on `t`, the closure of the first
call removes listener `2` (leaving `1`, the very listener it should have
removed), and invoking it again empties the registry and queues an
unsubscribe envelope — the registry does not stay unchanged. -/
theorem C2_pubsub_closure_pops_last_listener :
    (psUnsubClosure (⟨[("t", [1, 2])], true⟩ : PsState Nat) "t").1.subscriptions
      = [("t", [1])] ∧
    (psUnsubClosure (psUnsubClosure (⟨[("t", [1, 2])], true⟩ : PsState Nat) "t").1
        "t").1.subscriptions = [] ∧
    (psUnsubClosure (psUnsubClosure (⟨[("t", [1, 2])], true⟩ : PsState Nat) "t").1 "t").2
      = [PsEffect.sendEnvelope (unsubscribeEnvelopeFor "t"), PsEffect.disconnect] :=
  ⟨rfl, rfl, rfl⟩

/-! ### C7 -/

/-- C7: a panicking listener callback (modelled as returning `none`) is
absorbed at the dispatch boundary on both transports: dispatch invokes every
listener registered for the key exactly once with the same payload — in
particular the listener after a panicking one — leaves the registry (and all
service state) untouched, and the read loop goes on dispatching the
following frames. -/
theorem C7_callback_isolation :
    (∀ (st : RtState) (evt : SseEvent), eventName evt ≠ "PB_CONNECT" →
      (dispatchEvent st evt).state = st ∧ (dispatchEvent st evt).effects = [] ∧
      (dispatchEvent st evt).invocations =
        ((lookupList (eventName evt) st.subscriptions).getD []).map
          (fun l => (l.id, l.callback (eventPayload evt)))) ∧
    (∀ (st : RtState) (evt : SseEvent) (l₁ l₂ : RealtimeListener),
      eventName evt ≠ "PB_CONNECT" →
      lookupList (eventName evt) st.subscriptions = some [l₁, l₂] →
      l₁.callback (eventPayload evt) = none →
      (dispatchEvent st evt).invocations
        = [(l₁.id, none), (l₂.id, l₂.callback (eventPayload evt))]) ∧
    (∀ (st : RtState) (e : SseEvent) (es : List SseEvent),
      (dispatchAll st (e :: es)).1 = (dispatchAll (dispatchEvent st e).state es).1 ∧
      (dispatchAll st (e :: es)).2.2
        = (dispatchEvent st e).invocations ++ (dispatchAll (dispatchEvent st e).state es).2.2) ∧
    (∀ (subs : List (String × List PsCallback)) (payload : String) (c₁ c₂ : PsCallback),
      lookupList (psHandleMessage subs payload).1.topic subs = some [c₁, c₂] →
      (psHandleMessage subs payload).2
        = [c₁ (psHandleMessage subs payload).1, c₂ (psHandleMessage subs payload).1]) := by
  refine ⟨?_, ?_, ?_, ?_⟩
  · intro st evt h
    refine ⟨?_, ?_, ?_⟩ <;> simp [dispatchEvent, h]
  · intro st evt l₁ l₂ h hl hpanic
    simp [dispatchEvent, h, hl, hpanic]
  · intro st e es
    exact ⟨rfl, rfl⟩
  · intro subs payload c₁ c₂ hl
    simp only [psHandleMessage] at hl ⊢
    rw [hl]
    simp

theorem C7_callback_isolation_witness :
    eventName ⟨"t", "", ""⟩ ≠ "PB_CONNECT" ∧
    lookupList (eventName ⟨"t", "", ""⟩)
        (⟨"c", true, [("t", [⟨"l-1", fun _ => none⟩, ⟨"l-2", fun _ => some ()⟩])]⟩ :
          RtState).subscriptions
      = some [⟨"l-1", fun _ => none⟩, ⟨"l-2", fun _ => some ()⟩] ∧
    (dispatchEvent ⟨"c", true, [("t", [⟨"l-1", fun _ => none⟩, ⟨"l-2", fun _ => some ()⟩])]⟩
        ⟨"t", "", ""⟩).invocations = [("l-1", none), ("l-2", some ())] := by
  refine ⟨by decide, rfl, ?_⟩
  exact C7_callback_isolation.2.1
    ⟨"c", true, [("t", [⟨"l-1", fun _ => none⟩, ⟨"l-2", fun _ => some ()⟩])]⟩
    ⟨"t", "", ""⟩ ⟨"l-1", fun _ => none⟩ ⟨"l-2", fun _ => some ()⟩ (by decide) rfl rfl

/-! ### C8 -/

theorem regInv_filter {α : Type} (subs : List (String × List α)) (p : String × List α → Bool)
    (h : RegistryInv subs) : RegistryInv (subs.filter p) := by
  intro kv hkv
  exact h kv (List.mem_of_mem_filter hkv)

theorem regInv_addListener {α : Type} (subs : List (String × List α)) (k : String) (l : α)
    (h : RegistryInv subs) : RegistryInv (addListener subs k l) := by
  unfold addListener
  split
  · intro kv hkv
    rcases List.mem_map.mp hkv with ⟨kv', hkv', rfl⟩
    by_cases hk : (kv'.1 == k) = true
    · simp [hk]
    · have : (if (kv'.1 == k) = true then (kv'.1, kv'.2 ++ [l]) else kv') = kv' := if_neg hk
      rw [this]
      exact h kv' hkv'
  · intro kv hkv
    rcases List.mem_append.mp hkv with hkv | hkv
    · exact h kv hkv
    · simp only [List.mem_singleton] at hkv
      subst hkv
      simp

theorem regInv_setKeyList {α : Type} (subs : List (String × List α)) (k : String) (ls : List α)
    (hls : ls ≠ []) (h : RegistryInv subs) : RegistryInv (setKeyList subs k ls) := by
  intro kv hkv
  rcases List.mem_map.mp hkv with ⟨kv', hkv', rfl⟩
  by_cases hk : (kv'.1 == k) = true
  · simpa [hk] using hls
  · have : (if (kv'.1 == k) = true then (kv'.1, ls) else kv') = kv' := if_neg hk
    rw [this]
    exact h kv' hkv'

theorem regInv_rtRemoveListener (subs : RtRegistry) (topic lid : String)
    (h : RegistryInv subs) : RegistryInv (rtRemoveListener subs topic lid) := by
  intro kv hkv
  rcases List.mem_filterMap.mp hkv with ⟨a, ha, heq⟩
  unfold rtRemoveListener at hkv
  split at heq
  · split at heq
    · cases heq
    · rename_i hne'
      simp only [Option.some.injEq] at heq
      subst heq
      simpa using hne'
  · simp only [Option.some.injEq] at heq
    subst heq
    exact h a ha

theorem regInv_rtAfterRemoval (st : RtState) (h : RegistryInv st.subscriptions) :
    RegistryInv (rtAfterRemoval st).1.subscriptions := by
  by_cases he : st.subscriptions.isEmpty = true
  · simpa [rtAfterRemoval, he, applyRtDisconnect] using h
  · simpa [rtAfterRemoval, he] using h

theorem regInv_unsubByTopicAndId (st : RtState) (topic lid : String)
    (h : RegistryInv st.subscriptions) :
    RegistryInv (unsubscribeByTopicAndId st topic lid).1.subscriptions := by
  by_cases hc : st.subscriptions.any (fun kv => topicMatchesKey topic kv.1) = true
  · simpa [unsubscribeByTopicAndId, hc] using
      regInv_rtAfterRemoval _ (regInv_rtRemoveListener st.subscriptions topic lid h)
  · simpa [unsubscribeByTopicAndId, hc] using h

theorem regInv_psUnsubPop {CB : Type} (st : PsState CB) (topic : String)
    (h : RegistryInv st.subscriptions) : RegistryInv (psUnsubPop st topic).1 := by
  rcases hl : lookupList topic st.subscriptions with _ | ls
  · simpa [psUnsubPop, hl] using h
  · have hq : (psUnsubPop st topic).1
        = if (if ls.isEmpty then ls else ls.dropLast).isEmpty then
            removeKeyList st.subscriptions topic
          else setKeyList st.subscriptions topic (if ls.isEmpty then ls else ls.dropLast) := by
      simp only [psUnsubPop, hl]
      split <;> first
        | rfl
        | (split <;> rfl)
    rw [hq]
    generalize (if ls.isEmpty then ls else ls.dropLast) = tail
    split
    · exact regInv_filter _ _ h
    · rename_i hne'
      refine regInv_setKeyList _ _ _ ?_ h
      intro hnil
      exact hne' (by simp [hnil])

theorem regInv_psUnsubClosure {CB : Type} (st : PsState CB) (topic : String)
    (h : RegistryInv st.subscriptions) :
    RegistryInv (psUnsubClosure st topic).1.subscriptions := by
  by_cases he : (psUnsubPop st topic).1.isEmpty = true
  · simpa [psUnsubClosure, he] using regInv_psUnsubPop st topic h
  · simpa [psUnsubClosure, he] using regInv_psUnsubPop st topic h

/-- C8: every registry operation of both transports — subscribe, the
returned unsubscribe closures (`unsubscribe_by_topic_and_id` on the
push-stream side, the popping closure on the socket side), unsubscribing a
topic, unsubscribing everything, and prefix removal — preserves the
invariant that a key's entry exists iff its listener list is non-empty. -/
theorem C8_registry_invariant :
    (∀ (st : RtState) (topic : String) (query : List (String × Json))
        (headers : List (String × String)) (l : RealtimeListener),
      RegistryInv st.subscriptions →
      RegistryInv (rtSubscribe st topic query headers l).state.subscriptions) ∧
    (∀ (st : RtState) (topic lid : String), RegistryInv st.subscriptions →
      RegistryInv (unsubscribeByTopicAndId st topic lid).1.subscriptions) ∧
    (∀ (st : RtState) (topic : String), RegistryInv st.subscriptions →
      RegistryInv (rtUnsubscribeTopic st topic).1.subscriptions) ∧
    (∀ (st : RtState), RegistryInv st.subscriptions →
      RegistryInv (rtUnsubscribeAll st).1.subscriptions) ∧
    (∀ (st : RtState) (pre : String), RegistryInv st.subscriptions →
      RegistryInv (rtUnsubscribeByKeyStart st pre).1.subscriptions) ∧
    (∀ (CB : Type) (st : PsState CB) (topic : String) (cb : CB),
      RegistryInv st.subscriptions →
      RegistryInv (psSubscribe st topic cb).state.subscriptions) ∧
    (∀ (CB : Type) (st : PsState CB) (topic : String), RegistryInv st.subscriptions →
      RegistryInv (psUnsubClosure st topic).1.subscriptions) ∧
    (∀ (CB : Type) (st : PsState CB) (t? : Option String), RegistryInv st.subscriptions →
      RegistryInv (psUnsubscribe st t?).1.subscriptions) := by
  refine ⟨?_, ?_, ?_, ?_, ?_, ?_, ?_, ?_⟩
  · intro st topic query headers l h
    unfold rtSubscribe
    split
    · exact h
    · split
      · exact regInv_addListener _ _ _ h
      · exact regInv_addListener _ _ _ h
  · exact fun st topic lid h => regInv_unsubByTopicAndId st topic lid h
  · intro st topic h
    exact regInv_rtAfterRemoval _ (regInv_filter _ _ h)
  · intro st h
    intro kv hkv
    simp [rtUnsubscribeAll, applyRtDisconnect] at hkv
  · intro st pre h
    exact regInv_rtAfterRemoval _ (regInv_filter _ _ h)
  · intro CB st topic cb h
    unfold psSubscribe
    split
    · exact h
    · exact regInv_addListener _ _ _ h
  · exact fun CB st topic h => regInv_psUnsubClosure st topic h
  · intro CB st t? h
    cases t? with
    | some t =>
      by_cases he : (removeKeyList st.subscriptions t).isEmpty = true
      · simpa [psUnsubscribe, he] using
          regInv_filter st.subscriptions (fun kv => kv.1 != t) h
      · simpa [psUnsubscribe, he] using
          regInv_filter st.subscriptions (fun kv => kv.1 != t) h
    | none =>
      intro kv hkv
      simp [psUnsubscribe] at hkv

theorem C8_registry_invariant_witness :
    RegistryInv [("t", [(1 : Nat), 2])] ∧
    RegistryInv (psUnsubClosure (⟨[("t", [(1 : Nat), 2])], true⟩ : PsState Nat)
      "t").1.subscriptions := by
  have hinv : RegistryInv [("t", [(1 : Nat), 2])] := by
    intro kv hkv
    simp only [List.mem_singleton] at hkv
    subst hkv
    simp
  exact ⟨hinv,
    C8_registry_invariant.2.2.2.2.2.2.1 Nat (⟨[("t", [(1 : Nat), 2])], true⟩ : PsState Nat)
      "t" hinv⟩

/-! ### C6 -/

/-- C6: the push-stream line loop dispatches the accumulated frame on every
blank line (resetting the accumulator), skips comment lines, splits any
other line at the first colon and routes the start-trimmed value by field
name (`event` sets the name, an omitted or empty name defaults to
`message`; repeated `data` lines are newline-joined; `id` is recorded), and
end of input dispatches no partial frame.  A frame without data carries the
empty-object payload.  On the spec's concrete input, `PING` dispatches with
an empty payload and `msg` with the parsed `a` field. -/
theorem C6_frame_line_loop :
    (∀ (ev : SseEvent) (raw : String) (rest : List String), stripCrLf raw = "" →
      processLines ev (raw :: rest) = ev :: processLines emptySseEvent rest) ∧
    (∀ (ev : SseEvent) (raw : String) (rest : List String), stripCrLf raw ≠ "" →
      (stripCrLf raw).data.head? = some ':' →
      processLines ev (raw :: rest) = processLines ev rest) ∧
    (∀ (ev : SseEvent) (raw : String) (rest : List String) (f v : List Char),
      stripCrLf raw ≠ "" → (stripCrLf raw).data.head? ≠ some ':' →
      splitOnceColonAux (stripCrLf raw).data = some (f, v) →
      processLines ev (raw :: rest)
        = processLines (applyField ev ⟨f⟩ (trimStartStr ⟨v⟩)) rest) ∧
    (∀ ev : SseEvent, processLines ev [] = []) ∧
    (∀ d i : String, eventName ⟨"", d, i⟩ = "message") ∧
    (∀ e i : String, eventPayload ⟨e, "", i⟩ = Json.obj []) ∧
    (∀ (ev : SseEvent) (v : String), v ≠ "" →
      applyField ev "event" v = { ev with event := v }) ∧
    (∀ ev : SseEvent, applyField ev "event" "" = { ev with event := "message" }) ∧
    (∀ (ev : SseEvent) (v : String),
      applyField ev "data" v = { ev with data := ev.data ++ v ++ "\n" }) ∧
    (∀ (ev : SseEvent) (v : String), applyField ev "id" v = { ev with id := v }) ∧
    processLines emptySseEvent
        ["event: PING\n", "\n", "event: msg\n", "data: \x7b\"a\":1\x7d\n", "\n"]
      = [⟨"PING", "", ""⟩, ⟨"msg", "\x7b\"a\":1\x7d\n", ""⟩] ∧
    eventName ⟨"PING", "", ""⟩ = "PING" ∧
    eventPayload ⟨"PING", "", ""⟩ = Json.obj [] ∧
    eventName ⟨"msg", "\x7b\"a\":1\x7d\n", ""⟩ = "msg" ∧
    eventPayload ⟨"msg", "\x7b\"a\":1\x7d\n", ""⟩ = Json.obj [("a", Json.num 1)] := by
  refine ⟨?_, ?_, ?_, ?_, ?_, ?_, ?_, ?_, ?_, ?_, ?_, ?_, ?_, ?_, ?_⟩
  · intro ev raw rest h
    simp [processLines, h]
  · intro ev raw rest h₁ h₂
    simp [processLines, h₁, h₂]
  · intro ev raw rest f v h₁ h₂ h₃
    simp [processLines, h₁, h₂, h₃]
  · intro ev
    rfl
  · intro d i
    rfl
  · intro e i
    rfl
  · intro ev v h
    simp [applyField, h]
  · intro ev
    rfl
  · intro ev v
    rfl
  · intro ev v
    rfl
  · rfl
  · rfl
  · rfl
  · rfl
  · rfl

theorem C6_frame_line_loop_witness :
    stripCrLf "\r\n" = "" ∧
    processLines ⟨"a", "b", "c"⟩ ["\r\n"] = [⟨"a", "b", "c"⟩] :=
  ⟨rfl, C6_frame_line_loop.1 ⟨"a", "b", "c"⟩ "\r\n" [] rfl⟩

/-! ### C3 -/

/-- C3 (counterexample): on the push-stream transport, with session `c` and
the single key `K` holding listeners `l-1` and `l-2`, removing `l-1` keeps
the entry (and resubmits), and removing the now-last listener `l-2` deletes
the entry but sends no request to the server at all — it disconnects — so
no "exactly one unsubscribe notification" is triggered for the key. -/
theorem C3_counterexample_realtime_last_removal :
    (unsubscribeByTopicAndId
        ⟨"c", true, [("K", [⟨"l-1", fun _ => some ()⟩, ⟨"l-2", fun _ => some ()⟩])]⟩
        "K" "l-1").1.subscriptions = [("K", [⟨"l-2", fun _ => some ()⟩])] ∧
    (unsubscribeByTopicAndId
        (unsubscribeByTopicAndId
          ⟨"c", true, [("K", [⟨"l-1", fun _ => some ()⟩, ⟨"l-2", fun _ => some ()⟩])]⟩
          "K" "l-1").1 "K" "l-2").1.subscriptions = [] ∧
    (unsubscribeByTopicAndId
        (unsubscribeByTopicAndId
          ⟨"c", true, [("K", [⟨"l-1", fun _ => some ()⟩, ⟨"l-2", fun _ => some ()⟩])]⟩
          "K" "l-1").1 "K" "l-2").2.1 = [RtEffect.disconnect] ∧
    List.filterMap rtRequestOf
        (unsubscribeByTopicAndId
          (unsubscribeByTopicAndId
            ⟨"c", true, [("K", [⟨"l-1", fun _ => some ()⟩, ⟨"l-2", fun _ => some ()⟩])]⟩
            "K" "l-1").1 "K" "l-2").2.1 = [] :=
  ⟨rfl, rfl, rfl, rfl⟩

/-- C3 (amended): for a key with exactly two listeners — socket transport:
removing one listener (the closure pops the most recently added) keeps the
entry with one listener and queues no envelope; removing the last deletes
the entry and queues exactly one `unsubscribe` envelope for the key.
Push-stream transport: removing one listener keeps the entry with the
remaining listener and sends a full resubscription (there is no per-key
unsubscribe message); removing the last deletes the entry and, the registry
now being empty, disconnects without sending any request. -/
theorem C3_amended_two_listener_removal (CB : Type) (k : String) (c₁ c₂ : CB)
    (st : PsState CB) (hs : st.subscriptions = [(k, [c₁, c₂])])
    (rt : RtState) (l₁ l₂ : RealtimeListener)
    (hr : rt.subscriptions = [(k, [l₁, l₂])])
    (hid : l₁.id ≠ l₂.id) (hcid : rt.clientId ≠ "") :
    (psUnsubClosure st k).1.subscriptions = [(k, [c₁])] ∧
    List.filterMap envelopeOf (psUnsubClosure st k).2 = [] ∧
    (psUnsubClosure (psUnsubClosure st k).1 k).1.subscriptions = [] ∧
    List.filterMap envelopeOf (psUnsubClosure (psUnsubClosure st k).1 k).2
      = [unsubscribeEnvelopeFor k] ∧
    (unsubscribeByTopicAndId rt k l₁.id).1.subscriptions = [(k, [l₂])] ∧
    (unsubscribeByTopicAndId rt k l₁.id).2.1
      = [RtEffect.submitSubs rt.clientId [k]] ∧
    (unsubscribeByTopicAndId (unsubscribeByTopicAndId rt k l₁.id).1
        k l₂.id).1.subscriptions = [] ∧
    (unsubscribeByTopicAndId (unsubscribeByTopicAndId rt k l₁.id).1 k l₂.id).2.1
      = [RtEffect.disconnect] := by
  have hps₁ : (psUnsubClosure st k).1
      = { st with subscriptions := [(k, [c₁])] } := by
    simp [psUnsubClosure, psUnsubPop, hs, lookupList, setKeyList]
  have hps₁e : (psUnsubClosure st k).2 = [] := by
    simp [psUnsubClosure, psUnsubPop, hs, lookupList, setKeyList]
  have hps₂ : (psUnsubClosure { st with subscriptions := [(k, [c₁])] } k).1.subscriptions
      = [] := by
    simp [psUnsubClosure, psUnsubPop, lookupList, removeKeyList]
  have hps₂e : (psUnsubClosure { st with subscriptions := [(k, [c₁])] } k).2
      = [PsEffect.sendEnvelope (unsubscribeEnvelopeFor k), .disconnect] := by
    simp [psUnsubClosure, psUnsubPop, lookupList, removeKeyList]
  have hrt₁ : (unsubscribeByTopicAndId rt k l₁.id).1
      = { rt with subscriptions := [(k, [l₂])] } := by
    simp [unsubscribeByTopicAndId, rtRemoveListener, rtAfterRemoval, hr, topicMatchesKey,
      Ne.symm hid, submitEffects]
  have hrt₁e : (unsubscribeByTopicAndId rt k l₁.id).2.1
      = [RtEffect.submitSubs rt.clientId [k]] := by
    simp [unsubscribeByTopicAndId, rtRemoveListener, rtAfterRemoval, hr, topicMatchesKey,
      Ne.symm hid, submitEffects, registryKeys, hcid]
  have hrt₂ : (unsubscribeByTopicAndId { rt with subscriptions := [(k, [l₂])] } k l₂.id).1
      = applyRtDisconnect { rt with subscriptions := [] } := by
    simp [unsubscribeByTopicAndId, rtRemoveListener, rtAfterRemoval, topicMatchesKey,
      applyRtDisconnect]
  have hrt₂e : (unsubscribeByTopicAndId { rt with subscriptions := [(k, [l₂])] } k
      l₂.id).2.1 = [RtEffect.disconnect] := by
    simp [unsubscribeByTopicAndId, rtRemoveListener, rtAfterRemoval, topicMatchesKey]
  refine ⟨?_, ?_, ?_, ?_, ?_, ?_, ?_, ?_⟩
  · rw [hps₁]
  · rw [hps₁e]
    rfl
  · rw [hps₁, hps₂]
  · rw [hps₁, hps₂e]
    rfl
  · rw [hrt₁]
  · exact hrt₁e
  · rw [hrt₁, hrt₂]
    rfl
  · rw [hrt₁, hrt₂e]

theorem C3_amended_two_listener_removal_witness :
    ((⟨[("t", [1, 2])], true⟩ : PsState Nat).subscriptions = [("t", [1, 2])] ∧
      ("l-1" : String) ≠ "l-2" ∧ ("c" : String) ≠ "") ∧
    (psUnsubClosure (⟨[("t", [1, 2])], true⟩ : PsState Nat) "t").1.subscriptions
      = [("t", [1])] ∧
    (unsubscribeByTopicAndId
        ⟨"c", true, [("t", [⟨"l-1", fun _ => some ()⟩, ⟨"l-2", fun _ => some ()⟩])]⟩
        "t" "l-1").1.subscriptions = [("t", [⟨"l-2", fun _ => some ()⟩])] := by
  have h := C3_amended_two_listener_removal Nat "t" 1 2 ⟨[("t", [1, 2])], true⟩ rfl
    ⟨"c", true, [("t", [⟨"l-1", fun _ => some ()⟩, ⟨"l-2", fun _ => some ()⟩])]⟩
    ⟨"l-1", fun _ => some ()⟩ ⟨"l-2", fun _ => some ()⟩ rfl (by decide) (by decide)
  exact ⟨⟨rfl, by decide, by decide⟩, h.1, h.2.2.2.2.1⟩

/-! ### C4 -/

/-- C4 (counterexample): after a successful open whose stream later drops
(read error or remote close), `run_loop` reconnects immediately — the trace
for the script [successful open then drop, failed open] has two consecutive
attempts with no sleep between them, so not every reconnect after a
connection failure is preceded by a backoff delay. -/
theorem C4_counterexample_drop_reconnect_without_delay :
    runLoopEvents 0 [ConnOutcome.openOkThenDrop, ConnOutcome.openFail]
      = [LoopEv.attemptOpen, LoopEv.attemptOpen, LoopEv.sleepMs 200] ∧
    ¬ DelayPrecedesReconnects
        (runLoopEvents 0 [ConnOutcome.openOkThenDrop, ConnOutcome.openFail]) := by
  refine ⟨rfl, ?_⟩
  intro h
  rcases h 0 (by decide) with ⟨d, hd⟩
  simp [runLoopEvents, backoffDelay] at hd

/-- C4 (amended): for the push-stream transport, only a failed open is
followed by a backoff sleep, taken from the non-decreasing schedule
`[200, 500, 1000, 2000, 5000]` ms indexed by the consecutive-failure count
and clamped to `5000` once past the end, with the counter reset to zero by
any successful open; after a read error or remote close the next attempt
follows with no sleep.  The socket transport sleeps a fixed `300` ms
between any two attempts. -/
theorem C4_amended_backoff_schedule :
    (∀ (a : Nat) (rest : List ConnOutcome),
      runLoopEvents a (ConnOutcome.openFail :: rest)
        = LoopEv.attemptOpen :: LoopEv.sleepMs (backoffDelay a)
            :: runLoopEvents (a + 1) rest) ∧
    (∀ (a : Nat) (rest : List ConnOutcome),
      runLoopEvents a (ConnOutcome.openOkThenDrop :: rest)
        = LoopEv.attemptOpen :: runLoopEvents 0 rest) ∧
    backoffScheduleMs = [200, 500, 1000, 2000, 5000] ∧
    backoffDelay 0 = 200 ∧ backoffDelay 1 = 500 ∧ backoffDelay 2 = 1000 ∧
    backoffDelay 3 = 2000 ∧ backoffDelay 4 = 5000 ∧
    (∀ a : Nat, 4 ≤ a → backoffDelay a = 5000) ∧
    (∀ a b : Nat, a ≤ b → backoffDelay a ≤ backoffDelay b) ∧
    (∀ (a n : Nat), runLoopEvents a (List.replicate n ConnOutcome.openFail)
        = concatMapF (fun i => [LoopEv.attemptOpen, LoopEv.sleepMs (backoffDelay i)])
            (List.range' a n)) ∧
    (∀ o : ConnOutcome, socketLoopEvents [o] = [LoopEv.attemptOpen]) ∧
    (∀ (o o' : ConnOutcome) (rest : List ConnOutcome),
      socketLoopEvents (o :: o' :: rest)
        = LoopEv.attemptOpen :: LoopEv.sleepMs socketReconnectDelayMs
            :: socketLoopEvents (o' :: rest)) ∧
    socketReconnectDelayMs = 300 := by
  have hlen : backoffScheduleMs.length - 1 = 4 := by simp [backoffScheduleMs]
  have hclamp : ∀ a : Nat, 4 ≤ a → backoffDelay a = 5000 := by
    intro a ha
    have hm : min a (backoffScheduleMs.length - 1) = 4 := by
      rw [hlen]
      omega
    unfold backoffDelay
    rw [hm]
    rfl
  have hmono : ∀ a b : Nat, a ≤ b → backoffDelay a ≤ backoffDelay b := by
    have hsmall : ∀ i < 5, ∀ j < 5, i ≤ j →
        backoffScheduleMs.getD i 0 ≤ backoffScheduleMs.getD j 0 := by decide
    intro a b hab
    unfold backoffDelay
    rw [hlen]
    exact hsmall (min a 4) (by omega) (min b 4) (by omega) (by omega)
  have hrep : ∀ (n a : Nat), runLoopEvents a (List.replicate n ConnOutcome.openFail)
      = concatMapF (fun i => [LoopEv.attemptOpen, LoopEv.sleepMs (backoffDelay i)])
          (List.range' a n) := by
    intro n
    induction n with
    | zero => intro a; rfl
    | succ m ih =>
      intro a
      rw [List.replicate_succ, List.range'_succ]
      simp only [runLoopEvents, concatMapF]
      rw [ih (a + 1)]
      rfl
  exact ⟨fun a rest => rfl, fun a rest => rfl, rfl, rfl, rfl, rfl, rfl, rfl,
    hclamp, hmono, fun a n => hrep n a, fun o => rfl, fun o o' rest => rfl, rfl⟩

theorem C4_amended_backoff_schedule_witness :
    (4 ≤ 7 ∧ backoffDelay 7 = 5000) ∧ (1 ≤ 3 ∧ backoffDelay 1 ≤ backoffDelay 3) :=
  ⟨⟨by decide, C4_amended_backoff_schedule.2.2.2.2.2.2.2.2.1 7 (by decide)⟩,
    ⟨by decide, C4_amended_backoff_schedule.2.2.2.2.2.2.2.2.2.1 1 3 (by decide)⟩⟩

/-! ### C5, part 1: the canonical map is insertion-order independent -/

theorem lexLt_irrefl : ∀ l : List Char, lexLt l l = false := by
  intro l
  induction l with
  | nil => rfl
  | cons c cs ih => simp [lexLt, ih]

theorem lexLt_asymm : ∀ a b : List Char, lexLt a b = true → lexLt b a = false := by
  intro a
  induction a with
  | nil =>
    intro b h
    cases b with
    | nil => simp [lexLt] at h
    | cons c cs => simp [lexLt]
  | cons c cs ih =>
    intro b h
    cases b with
    | nil => simp [lexLt] at h
    | cons d ds =>
      simp only [lexLt] at h ⊢
      by_cases h₁ : c.toNat < d.toNat
      · have : ¬ d.toNat < c.toNat := by omega
        simp [this, show ¬ d.toNat = c.toNat by omega]
      · simp only [h₁, if_false] at h
        by_cases h₂ : c.toNat = d.toNat
        · simp only [h₂, if_pos rfl, if_true] at h ⊢
          simp [show ¬ d.toNat < d.toNat by omega, ih ds h]
        · simp [h₁, h₂] at h

theorem lexLt_total : ∀ a b : List Char, lexLt a b = false → lexLt b a = false → a = b := by
  intro a
  induction a with
  | nil =>
    intro b h₁ h₂
    cases b with
    | nil => rfl
    | cons d ds => simp [lexLt] at h₁
  | cons c cs ih =>
    intro b h₁ h₂
    cases b with
    | nil => simp [lexLt] at h₂
    | cons d ds =>
      simp only [lexLt] at h₁ h₂
      by_cases hlt : c.toNat < d.toNat
      · simp [hlt] at h₁
      · by_cases heq : c.toNat = d.toNat
        · have hc : c = d := by
            have := congrArg Char.ofNat heq
            simpa [Char.ofNat_toNat] using this
          subst hc
          simp only [if_pos rfl, hlt, if_false] at h₁ h₂
          rw [ih ds h₁ h₂]
        · have hdl : d.toNat < c.toNat := by omega
          simp [hdl, show ¬ d.toNat = c.toNat by omega] at h₂

theorem lexLt_trans : ∀ a b c : List Char,
    lexLt a b = true → lexLt b c = true → lexLt a c = true := by
  intro a
  induction a with
  | nil =>
    intro b c h₁ h₂
    cases b with
    | nil => simp [lexLt] at h₁
    | cons d ds =>
      cases c with
      | nil => simp [lexLt] at h₂
      | cons e es => simp [lexLt]
  | cons x xs ih =>
    intro b c h₁ h₂
    cases b with
    | nil => simp [lexLt] at h₁
    | cons d ds =>
      cases c with
      | nil => simp [lexLt] at h₂
      | cons e es =>
        simp only [lexLt] at h₁ h₂ ⊢
        by_cases hxd : x.toNat < d.toNat
        · by_cases hde : d.toNat < e.toNat
          · simp [show x.toNat < e.toNat by omega]
          · simp only [hde, if_false] at h₂
            by_cases hde' : d.toNat = e.toNat
            · simp [show x.toNat < e.toNat by omega]
            · simp [hde, hde'] at h₂
        · simp only [hxd, if_false] at h₁
          by_cases hxd' : x.toNat = d.toNat
          · simp only [hxd', if_pos rfl, if_true] at h₁
            by_cases hde : d.toNat < e.toNat
            · simp [hxd' ▸ hde]
            · simp only [hde, if_false] at h₂
              by_cases hde' : d.toNat = e.toNat
              · simp only [hde', if_pos rfl, if_true] at h₂
                have hlt := ih ds es h₁ h₂
                simp [show ¬ x.toNat < e.toNat by omega, show x.toNat = e.toNat by omega, hlt]
              · simp [hde, hde'] at h₂
          · simp [hxd, hxd'] at h₁

theorem strKeyEq_of_not_lexLt {a b : String} (h₁ : lexLt a.data b.data = false)
    (h₂ : lexLt b.data a.data = false) : a = b := by
  have h := lexLt_total a.data b.data h₁ h₂
  cases a
  cases b
  exact congrArg String.mk h

theorem sIns_nil {α : Type} (kv : String × α) : sIns kv [] = [kv] := rfl

theorem sIns_cons_lt {α : Type} (kv x : String × α) (xs : List (String × α))
    (h : lexLt kv.1.data x.1.data = true) : sIns kv (x :: xs) = kv :: x :: xs := by
  simp [sIns, h]

theorem sIns_cons_eq {α : Type} (kv x : String × α) (xs : List (String × α))
    (h : kv.1 = x.1) : sIns kv (x :: xs) = kv :: xs := by
  simp [sIns, h, lexLt_irrefl]

theorem sIns_cons_gt {α : Type} (kv x : String × α) (xs : List (String × α))
    (h : lexLt kv.1.data x.1.data = false) (hne : kv.1 ≠ x.1) :
    sIns kv (x :: xs) = x :: sIns kv xs := by
  simp [sIns, h, hne]

theorem lexLt_flip {a b : String} (hne : a ≠ b) (h : lexLt a.data b.data = false) :
    lexLt b.data a.data = true := by
  cases hyx : lexLt b.data a.data with
  | true => rfl
  | false => exact absurd (strKeyEq_of_not_lexLt h hyx) hne

theorem sIns_comm {α : Type} (a b : String × α) (hab : a.1 ≠ b.1) :
    ∀ l : List (String × α), sIns a (sIns b l) = sIns b (sIns a l) := by
  intro l
  induction l with
  | nil =>
    rw [sIns_nil, sIns_nil]
    by_cases h₁ : lexLt a.1.data b.1.data = true
    · rw [sIns_cons_lt a b [] h₁, sIns_cons_gt b a [] (lexLt_asymm _ _ h₁) (Ne.symm hab),
        sIns_nil]
    · have h₁' : lexLt a.1.data b.1.data = false := by
        cases h : lexLt a.1.data b.1.data
        · rfl
        · exact absurd h h₁
      have h₂ := lexLt_flip hab h₁'
      rw [sIns_cons_gt a b [] h₁' hab, sIns_cons_lt b a [] h₂, sIns_nil]
  | cons x xs ih =>
    by_cases hax : lexLt a.1.data x.1.data = true
    · by_cases hbx : lexLt b.1.data x.1.data = true
      · -- both in front of x
        by_cases hab₁ : lexLt a.1.data b.1.data = true
        · rw [sIns_cons_lt b x xs hbx, sIns_cons_lt a b (x :: xs) hab₁,
            sIns_cons_lt a x xs hax,
            sIns_cons_gt b a (x :: xs) (lexLt_asymm _ _ hab₁) (Ne.symm hab),
            sIns_cons_lt b x xs hbx]
        · have hab₂ : lexLt a.1.data b.1.data = false := by
            cases h : lexLt a.1.data b.1.data
            · rfl
            · exact absurd h hab₁
          have hba := lexLt_flip hab hab₂
          rw [sIns_cons_lt b x xs hbx, sIns_cons_gt a b (x :: xs) hab₂ hab,
            sIns_cons_lt a x xs hax, sIns_cons_lt b a (x :: xs) hba]
      · have hbx' : lexLt b.1.data x.1.data = false := by
          cases h : lexLt b.1.data x.1.data
          · rfl
          · exact absurd h hbx
        by_cases hbxeq : b.1 = x.1
        · -- b replaces x; a goes in front of both
          have hab₁ : lexLt a.1.data b.1.data = true := by rw [hbxeq]; exact hax
          rw [sIns_cons_eq b x xs hbxeq, sIns_cons_lt a b xs hab₁,
            sIns_cons_lt a x xs hax,
            sIns_cons_gt b a (x :: xs) (lexLt_asymm _ _ hab₁) (Ne.symm hab),
            sIns_cons_eq b x xs hbxeq]
        · -- b goes past x; a in front
          have hxb := lexLt_flip hbxeq hbx'
          have hab₁ : lexLt a.1.data b.1.data = true := lexLt_trans _ _ _ hax hxb
          rw [sIns_cons_gt b x xs hbx' hbxeq, sIns_cons_lt a x (sIns b xs) hax,
            sIns_cons_lt a x xs hax,
            sIns_cons_gt b a (x :: xs) (lexLt_asymm _ _ hab₁) (Ne.symm hab),
            sIns_cons_gt b x xs hbx' hbxeq]
    · have hax' : lexLt a.1.data x.1.data = false := by
        cases h : lexLt a.1.data x.1.data
        · rfl
        · exact absurd h hax
      by_cases haxeq : a.1 = x.1
      · -- a replaces x
        by_cases hbx : lexLt b.1.data x.1.data = true
        · have hba : lexLt b.1.data a.1.data = true := by rw [haxeq]; exact hbx
          rw [sIns_cons_lt b x xs hbx, sIns_cons_gt a b (x :: xs) (lexLt_asymm _ _ hba) hab,
            sIns_cons_eq a x xs haxeq, sIns_cons_lt b a xs hba]
        · have hbx' : lexLt b.1.data x.1.data = false := by
            cases h : lexLt b.1.data x.1.data
            · rfl
            · exact absurd h hbx
          have hbxeq : b.1 ≠ x.1 := fun he => hab (haxeq.trans he.symm)
          have hxb := lexLt_flip hbxeq hbx'
          have hab₁ : lexLt a.1.data b.1.data = true := by rw [haxeq]; exact hxb
          rw [sIns_cons_gt b x xs hbx' hbxeq, sIns_cons_eq a x (sIns b xs) haxeq,
            sIns_cons_eq a x xs haxeq,
            sIns_cons_gt b a xs (lexLt_asymm _ _ hab₁) (Ne.symm hab)]
      · -- a goes past x
        have hxa := lexLt_flip haxeq hax'
        by_cases hbx : lexLt b.1.data x.1.data = true
        · have hba : lexLt b.1.data a.1.data = true := lexLt_trans _ _ _ hbx hxa
          rw [sIns_cons_lt b x xs hbx,
            sIns_cons_gt a b (x :: xs) (lexLt_asymm _ _ hba) hab,
            sIns_cons_gt a x xs hax' haxeq, sIns_cons_lt b x (sIns a xs) hbx]
        · have hbx' : lexLt b.1.data x.1.data = false := by
            cases h : lexLt b.1.data x.1.data
            · rfl
            · exact absurd h hbx
          by_cases hbxeq : b.1 = x.1
          · -- b replaces x; a goes past
            have hba : lexLt b.1.data a.1.data = true := by rw [hbxeq]; exact hxa
            rw [sIns_cons_eq b x xs hbxeq,
              sIns_cons_gt a b xs (lexLt_asymm _ _ hba) hab,
              sIns_cons_gt a x xs hax' haxeq, sIns_cons_eq b x (sIns a xs) hbxeq]
          · -- both go past x
            rw [sIns_cons_gt b x xs hbx' hbxeq, sIns_cons_gt a x (sIns b xs) hax' haxeq,
              sIns_cons_gt a x xs hax' haxeq, sIns_cons_gt b x (sIns a xs) hbx' hbxeq, ih]

theorem canonFold_perm {α : Type} :
    ∀ (l₁ l₂ : List (String × α)), l₁.Perm l₂ → (l₁.map Prod.fst).Nodup →
      ∀ acc, l₁.foldl (fun acc kv => sIns kv acc) acc
        = l₂.foldl (fun acc kv => sIns kv acc) acc := by
  intro l₁ l₂ hperm
  induction hperm with
  | nil => intro _ acc; rfl
  | cons kv _ ih =>
    intro hnd acc
    simp only [List.foldl_cons]
    exact ih (by simpa using (List.nodup_cons.mp (by simpa using hnd)).2) (sIns kv acc)
  | swap kv₁ kv₂ l =>
    intro hnd acc
    simp only [List.foldl_cons]
    have hne : kv₂.1 ≠ kv₁.1 := by
      simp only [List.map_cons, List.nodup_cons, List.mem_cons] at hnd
      exact fun he => hnd.1 (Or.inl he)
    rw [sIns_comm kv₁ kv₂ (Ne.symm hne) acc]
  | trans hp₁ hp₂ ih₁ ih₂ =>
    intro hnd acc
    rw [ih₁ hnd acc]
    refine ih₂ ?_ acc
    exact (hp₁.map Prod.fst).nodup_iff.mp hnd

theorem canonMap_perm {α : Type} (l₁ l₂ : List (String × α)) (hperm : l₁.Perm l₂)
    (hnd : (l₁.map Prod.fst).Nodup) : canonMap l₁ = canonMap l₂ :=
  canonFold_perm l₁ l₂ hperm hnd []

/-! ### C5, part 2: percent-encoding is injective -/

theorem concatMapF_nil (f : α → List β) : concatMapF f [] = [] := rfl

theorem concatMapF_cons (f : α → List β) (a : α) (l : List α) :
    concatMapF f (a :: l) = f a ++ concatMapF f l := rfl

theorem concatMapF_inj {α β : Type} (f : α → List β) (hne : ∀ a, f a ≠ [])
    (hpc : ∀ a b s t, f a ++ s = f b ++ t → a = b) :
    ∀ l₁ l₂, concatMapF f l₁ = concatMapF f l₂ → l₁ = l₂ := by
  intro l₁
  induction l₁ with
  | nil =>
    intro l₂ h
    cases l₂ with
    | nil => rfl
    | cons b r =>
      rw [concatMapF_nil, concatMapF_cons] at h
      exact absurd (List.append_eq_nil.mp h.symm).1 (hne b)
  | cons a r₁ ih =>
    intro l₂ h
    cases l₂ with
    | nil =>
      rw [concatMapF_nil, concatMapF_cons] at h
      exact absurd (List.append_eq_nil.mp h).1 (hne a)
    | cons b r₂ =>
      rw [concatMapF_cons, concatMapF_cons] at h
      have hab := hpc a b _ _ h
      subst hab
      rw [List.append_cancel_left_eq] at h
      rw [ih r₂ h]

theorem charToNat_lt (c : Char) : c.toNat < 1114112 := by
  rcases c.valid with h | ⟨h1, h2⟩
  · exact Nat.lt_trans h (by norm_num)
  · exact h2

theorem utf8Bytes_ne_nil (n : Nat) : utf8Bytes n ≠ [] := by
  unfold utf8Bytes
  split_ifs <;> simp

theorem utf8Bytes_lt256 (n : Nat) (h : n < 1114112) : ∀ b ∈ utf8Bytes n, b < 256 := by
  unfold utf8Bytes
  split_ifs with h₁ h₂ h₃ <;> intro b hb <;> simp at hb <;> omega

theorem hexU_inj : ∀ i < 16, ∀ j < 16, hexUpperChar i = hexUpperChar j → i = j := by decide

theorem utf8_len_eq_of_head_eq (n₁ n₂ : Nat) (h₁ : n₁ < 1114112) (h₂ : n₂ < 1114112)
    (hb : (utf8Bytes n₁).head? = (utf8Bytes n₂).head?) :
    (utf8Bytes n₁).length = (utf8Bytes n₂).length := by
  unfold utf8Bytes at hb ⊢
  split_ifs at hb ⊢ <;> simp_all <;> omega

theorem utf8Bytes_inj (n₁ n₂ : Nat) (h₁ : n₁ < 1114112) (h₂ : n₂ < 1114112)
    (h : utf8Bytes n₁ = utf8Bytes n₂) : n₁ = n₂ := by
  unfold utf8Bytes at h
  split_ifs at h <;> simp_all <;> omega

theorem pctList_bytes_eq : ∀ (bs₁ bs₂ : List Nat) (s t : List Char),
    bs₁.length = bs₂.length → (∀ b ∈ bs₁, b < 256) → (∀ b ∈ bs₂, b < 256) →
    concatMapF pctByteChars bs₁ ++ s = concatMapF pctByteChars bs₂ ++ t →
    bs₁ = bs₂ ∧ s = t := by
  intro bs₁
  induction bs₁ with
  | nil =>
    intro bs₂ s t hlen _ _ h
    cases bs₂ with
    | nil => exact ⟨rfl, by simpa [concatMapF_nil] using h⟩
    | cons b r => simp at hlen
  | cons b₁ r₁ ih =>
    intro bs₂ s t hlen hb₁ hb₂ h
    cases bs₂ with
    | nil => simp at hlen
    | cons b₂ r₂ =>
      rw [concatMapF_cons, concatMapF_cons] at h
      simp only [pctByteChars, List.cons_append, List.append_assoc, List.cons.injEq] at h
      obtain ⟨-, e₁, e₂, e₃⟩ := h
      have d₁ := hexU_inj (b₁ / 16) (by have := hb₁ b₁ (by simp); omega)
        (b₂ / 16) (by have := hb₂ b₂ (by simp); omega) e₁
      have d₂ := hexU_inj (b₁ % 16) (by omega) (b₂ % 16) (by omega) e₂
      have hb : b₁ = b₂ := by omega
      subst hb
      have hr := ih r₂ s t (by simpa using hlen)
        (fun b hb => hb₁ b (List.mem_cons_of_mem _ hb))
        (fun b hb => hb₂ b (List.mem_cons_of_mem _ hb)) (by simpa using e₃)
      exact ⟨by rw [hr.1], hr.2⟩

theorem encodeChar_pc (c₁ c₂ : Char) (s t : List Char)
    (h : encodeChar c₁ ++ s = encodeChar c₂ ++ t) : c₁ = c₂ := by
  unfold encodeChar at h
  by_cases a₁ : isUriAllowedChar c₁ = true <;> by_cases a₂ : isUriAllowedChar c₂ = true
  · rw [if_pos a₁, if_pos a₂] at h
    exact (List.cons.injEq _ _ _ _ ▸ h).1
  · rw [if_pos a₁, if_neg a₂] at h
    rcases hu : utf8Bytes c₂.toNat with _ | ⟨b, r⟩
    · exact absurd hu (utf8Bytes_ne_nil _)
    · rw [hu, concatMapF_cons] at h
      simp only [pctByteChars, List.cons_append, List.append_assoc, List.cons.injEq] at h
      have : c₁ = '%' := h.1
      subst this
      exact absurd a₁ (by decide)
  · rw [if_neg a₁, if_pos a₂] at h
    rcases hu : utf8Bytes c₁.toNat with _ | ⟨b, r⟩
    · exact absurd hu (utf8Bytes_ne_nil _)
    · rw [hu, concatMapF_cons] at h
      simp only [pctByteChars, List.cons_append, List.append_assoc, List.cons.injEq] at h
      have : '%' = c₂ := h.1
      subst this
      exact absurd a₂ (by decide)
  · rw [if_neg a₁, if_neg a₂] at h
    have hv₁ := charToNat_lt c₁
    have hv₂ := charToNat_lt c₂
    rcases hu₁ : utf8Bytes c₁.toNat with _ | ⟨b₁, r₁⟩
    · exact absurd hu₁ (utf8Bytes_ne_nil _)
    rcases hu₂ : utf8Bytes c₂.toNat with _ | ⟨b₂, r₂⟩
    · exact absurd hu₂ (utf8Bytes_ne_nil _)
    have hlt₁ := utf8Bytes_lt256 c₁.toNat hv₁
    have hlt₂ := utf8Bytes_lt256 c₂.toNat hv₂
    have hb₁ : b₁ < 256 := hlt₁ b₁ (by rw [hu₁]; simp)
    have hb₂ : b₂ < 256 := hlt₂ b₂ (by rw [hu₂]; simp)
    have hcomp : hexUpperChar (b₁ / 16) = hexUpperChar (b₂ / 16) ∧
        hexUpperChar (b₁ % 16) = hexUpperChar (b₂ % 16) := by
      rw [hu₁, hu₂, concatMapF_cons, concatMapF_cons] at h
      simp only [pctByteChars, List.cons_append, List.append_assoc, List.cons.injEq] at h
      exact ⟨h.2.1, h.2.2.1⟩
    have d₁ := hexU_inj (b₁ / 16) (by omega) (b₂ / 16) (by omega) hcomp.1
    have d₂ := hexU_inj (b₁ % 16) (by omega) (b₂ % 16) (by omega) hcomp.2
    have hbb : b₁ = b₂ := by omega
    have hlen := utf8_len_eq_of_head_eq c₁.toNat c₂.toNat hv₁ hv₂
      (by rw [hu₁, hu₂, hbb]; rfl)
    have heq := pctList_bytes_eq (utf8Bytes c₁.toNat) (utf8Bytes c₂.toNat) s t hlen
      hlt₁ hlt₂ h
    have hn := utf8Bytes_inj c₁.toNat c₂.toNat hv₁ hv₂ heq.1
    calc c₁ = Char.ofNat c₁.toNat := (Char.ofNat_toNat c₁).symm
      _ = Char.ofNat c₂.toNat := by rw [hn]
      _ = c₂ := Char.ofNat_toNat c₂

theorem encodeChar_ne_nil (c : Char) : encodeChar c ≠ [] := by
  unfold encodeChar
  split
  · simp
  · rcases hu : utf8Bytes c.toNat with _ | ⟨b, r⟩
    · exact absurd hu (utf8Bytes_ne_nil _)
    · rw [concatMapF_cons]
      simp [pctByteChars]

theorem urlencode_inj (s₁ s₂ : String) (h : urlencode s₁ = urlencode s₂) : s₁ = s₂ := by
  unfold urlencode at h
  have hdata : concatMapF encodeChar s₁.data = concatMapF encodeChar s₂.data := by
    have := congrArg String.data h
    simpa using this
  have := concatMapF_inj encodeChar encodeChar_ne_nil encodeChar_pc _ _ hdata
  cases s₁
  cases s₂
  exact congrArg String.mk this

/-! ### C5, part 3: the parser inverts the serializer -/

theorem skipWs_cons (c : Char) (r : List Char) (h : isJsonWs c = false) :
    skipWs (c :: r) = c :: r := by
  simp [skipWs, List.dropWhile_cons, h]

theorem isDigitC_range {c : Char} (h : isDigitC c = true) :
    48 ≤ c.toNat ∧ c.toNat ≤ 57 := by
  simpa [isDigitC] using h

theorem digit_not_ws {c : Char} (h : isDigitC c = true) : isJsonWs c = false := by
  have hr := isDigitC_range h
  simp only [isJsonWs, Bool.or_eq_false_iff, decide_eq_false_iff_not]
  refine ⟨⟨⟨?_, ?_⟩, ?_⟩, ?_⟩ <;> (rintro rfl; revert hr; decide)

theorem digit_ne {c x : Char} (h : isDigitC c = true) (hx : isDigitC x = false) : c ≠ x := by
  rintro rfl
  rw [h] at hx
  cases hx

theorem isDigitC_digitChar : ∀ d < 10, isDigitC (Nat.digitChar d) = true := by decide

theorem digitChar_toNat : ∀ d < 10, (Nat.digitChar d).toNat = 48 + d := by decide

theorem hexVal_digitChar : ∀ k < 16, hexVal (Nat.digitChar k) = some k := by decide

theorem natChars_ne_nil (n : Nat) : natChars n ≠ [] := by
  rw [natChars]
  split <;> simp

theorem natChars_digits (n : Nat) : ∀ c ∈ natChars n, isDigitC c = true := by
  induction n using Nat.strong_induction_on with
  | _ n ih =>
    rw [natChars]
    split
    · rename_i h
      intro c hc
      simp only [List.mem_singleton] at hc
      subst hc
      exact isDigitC_digitChar n h
    · rename_i h
      intro c hc
      rcases List.mem_append.mp hc with hc | hc
      · exact ih (n / 10) (Nat.div_lt_self (by omega) (by omega)) c hc
      · simp only [List.mem_singleton] at hc
        subst hc
        exact isDigitC_digitChar (n % 10) (Nat.mod_lt n (by omega))

theorem digitsToNat_append_last (ds : List Char) (c : Char) :
    digitsToNat (ds ++ [c]) = 10 * digitsToNat ds + (c.toNat - 48) := by
  simp [digitsToNat, List.foldl_append]

theorem digitsToNat_natChars (n : Nat) : digitsToNat (natChars n) = n := by
  induction n using Nat.strong_induction_on with
  | _ n ih =>
    rw [natChars]
    split
    · rename_i h
      simp [digitsToNat, digitChar_toNat n h]
    · rename_i h
      rw [digitsToNat_append_last, ih (n / 10) (Nat.div_lt_self (by omega) (by omega)),
        digitChar_toNat (n % 10) (Nat.mod_lt n (by omega))]
      omega

theorem spanDigits_append (ds r : List Char) (hds : ∀ c ∈ ds, isDigitC c = true)
    (hr : ∀ c, r.head? = some c → isDigitC c = false) :
    spanDigits (ds ++ r) = (ds, r) := by
  induction ds with
  | nil =>
    cases r with
    | nil => rfl
    | cons c r' =>
      have := hr c rfl
      simp [spanDigits, this]
  | cons d ds ih =>
    have hd := hds d (by simp)
    have ih' := ih (fun c hc => hds c (List.mem_cons_of_mem _ hc))
    simp only [List.cons_append, spanDigits, hd, if_true, List.append_eq, ih']

theorem parseStrAux_closeQuote (r : List Char) : parseStrAux ('"' :: r) = some ([], r) := by
  rw [parseStrAux.eq_def]
  rfl

theorem parseStrAux_escQuote (r : List Char) :
    parseStrAux ('\\' :: '"' :: r) = (parseStrAux r).map (fun p => ('"' :: p.1, p.2)) := by
  rw [parseStrAux.eq_def]
  rfl

theorem parseStrAux_escBackslash (r : List Char) :
    parseStrAux ('\\' :: '\\' :: r) = (parseStrAux r).map (fun p => ('\\' :: p.1, p.2)) := by
  rw [parseStrAux.eq_def]
  rfl

theorem parseStrAux_escB (r : List Char) :
    parseStrAux ('\\' :: 'b' :: r) = (parseStrAux r).map (fun p => ('\x08' :: p.1, p.2)) := by
  rw [parseStrAux.eq_def]
  rfl

theorem parseStrAux_escT (r : List Char) :
    parseStrAux ('\\' :: 't' :: r) = (parseStrAux r).map (fun p => ('\x09' :: p.1, p.2)) := by
  rw [parseStrAux.eq_def]
  rfl

theorem parseStrAux_escN (r : List Char) :
    parseStrAux ('\\' :: 'n' :: r) = (parseStrAux r).map (fun p => ('\x0a' :: p.1, p.2)) := by
  rw [parseStrAux.eq_def]
  rfl

theorem parseStrAux_escF (r : List Char) :
    parseStrAux ('\\' :: 'f' :: r) = (parseStrAux r).map (fun p => ('\x0c' :: p.1, p.2)) := by
  rw [parseStrAux.eq_def]
  rfl

theorem parseStrAux_escR (r : List Char) :
    parseStrAux ('\\' :: 'r' :: r) = (parseStrAux r).map (fun p => ('\x0d' :: p.1, p.2)) := by
  rw [parseStrAux.eq_def]
  rfl

theorem parseStrAux_escU (h₁ h₂ h₃ h₄ : Char) (a b c' d : Nat) (r : List Char)
    (e₁ : hexVal h₁ = some a) (e₂ : hexVal h₂ = some b) (e₃ : hexVal h₃ = some c')
    (e₄ : hexVal h₄ = some d) :
    parseStrAux ('\\' :: 'u' :: h₁ :: h₂ :: h₃ :: h₄ :: r)
      = (parseStrAux r).map
          (fun p => (Char.ofNat (4096 * a + 256 * b + 16 * c' + d) :: p.1, p.2)) := by
  rw [parseStrAux.eq_def]
  simp only [e₁, e₂, e₃, e₄]
  rfl

theorem parseStrAux_ord (c : Char) (r : List Char) (g1 : c ≠ '"') (g2 : c ≠ '\\') :
    parseStrAux (c :: r) = (parseStrAux r).map (fun p => (c :: p.1, p.2)) := by
  rw [parseStrAux.eq_def]
  dsimp only
  rw [if_neg g1, if_neg g2]

theorem parseStrAux_rt : ∀ (cs r : List Char),
    parseStrAux (concatMapF escChar cs ++ '"' :: r) = some (cs, r) := by
  intro cs
  induction cs with
  | nil =>
    intro r
    rw [concatMapF_nil, List.nil_append, parseStrAux_closeQuote]
  | cons c cs ih =>
    intro r
    rw [concatMapF_cons, List.append_assoc]
    by_cases h1 : c = '"'
    · subst h1
      rw [show escChar '"' = ['\\', '"'] from rfl]
      simp only [List.cons_append, List.nil_append]
      rw [parseStrAux_escQuote, ih]
      rfl
    · by_cases h2 : c = '\\'
      · subst h2
        rw [show escChar '\\' = ['\\', '\\'] from rfl]
        simp only [List.cons_append, List.nil_append]
        rw [parseStrAux_escBackslash, ih]
        rfl
      · by_cases h3 : c = '\x08'
        · subst h3
          rw [show escChar '\x08' = ['\\', 'b'] from rfl]
          simp only [List.cons_append, List.nil_append]
          rw [parseStrAux_escB, ih]
          rfl
        · by_cases h4 : c = '\x09'
          · subst h4
            rw [show escChar '\x09' = ['\\', 't'] from rfl]
            simp only [List.cons_append, List.nil_append]
            rw [parseStrAux_escT, ih]
            rfl
          · by_cases h5 : c = '\x0a'
            · subst h5
              rw [show escChar '\x0a' = ['\\', 'n'] from rfl]
              simp only [List.cons_append, List.nil_append]
              rw [parseStrAux_escN, ih]
              rfl
            · by_cases h6 : c = '\x0c'
              · subst h6
                rw [show escChar '\x0c' = ['\\', 'f'] from rfl]
                simp only [List.cons_append, List.nil_append]
                rw [parseStrAux_escF, ih]
                rfl
              · by_cases h7 : c = '\x0d'
                · subst h7
                  rw [show escChar '\x0d' = ['\\', 'r'] from rfl]
                  simp only [List.cons_append, List.nil_append]
                  rw [parseStrAux_escR, ih]
                  rfl
                · by_cases h8 : c.toNat < 32
                  · have hesc : escChar c
                        = ['\\', 'u', '0', '0', Nat.digitChar (c.toNat / 16),
                            Nat.digitChar (c.toNat % 16)] := by
                      simp [escChar, h1, h2, h3, h4, h5, h6, h7, h8]
                    rw [hesc]
                    simp only [List.cons_append, List.nil_append]
                    rw [parseStrAux_escU '0' '0' (Nat.digitChar (c.toNat / 16))
                        (Nat.digitChar (c.toNat % 16)) 0 0 (c.toNat / 16) (c.toNat % 16) _
                        (by decide) (by decide) (hexVal_digitChar (c.toNat / 16) (by omega))
                        (hexVal_digitChar (c.toNat % 16) (by omega)), ih]
                    rw [show (4096 * 0 + 256 * 0 + 16 * (c.toNat / 16) + c.toNat % 16)
                        = c.toNat by omega, Char.ofNat_toNat]
                    rfl
                  · have hesc : escChar c = [c] := by
                      simp [escChar, h1, h2, h3, h4, h5, h6, h7, h8]
                    rw [hesc]
                    simp only [List.cons_append, List.nil_append]
                    rw [parseStrAux_ord c _ h1 h2, ih]
                    rfl

theorem parseVal_null (f : Nat) (r : List Char) :
    parseVal (f + 1) ('n' :: 'u' :: 'l' :: 'l' :: r) = some (Json.null, r) := by
  rw [parseVal.eq_def]
  dsimp only
  rw [skipWs_cons 'n' _ (by rfl)]
  dsimp only
  simp [expectChars, List.isPrefixOf]

theorem parseVal_true (f : Nat) (r : List Char) :
    parseVal (f + 1) ('t' :: 'r' :: 'u' :: 'e' :: r) = some (Json.bool true, r) := by
  rw [parseVal.eq_def]
  dsimp only
  rw [skipWs_cons 't' _ (by rfl)]
  dsimp only
  simp [expectChars, List.isPrefixOf]

theorem parseVal_false (f : Nat) (r : List Char) :
    parseVal (f + 1) ('f' :: 'a' :: 'l' :: 's' :: 'e' :: r) = some (Json.bool false, r) := by
  rw [parseVal.eq_def]
  dsimp only
  rw [skipWs_cons 'f' _ (by rfl)]
  dsimp only
  simp [expectChars, List.isPrefixOf]

theorem parseVal_quote (f : Nat) (r : List Char) :
    parseVal (f + 1) ('"' :: r)
      = (parseStrAux r).map (fun p => (Json.str ⟨p.1⟩, p.2)) := by
  rw [parseVal.eq_def]
  dsimp only
  rw [skipWs_cons '"' _ (by rfl)]
  dsimp only
  simp

theorem parseVal_lbrack (f : Nat) (r : List Char) :
    parseVal (f + 1) ('[' :: r) = parseElems f r := by
  rw [parseVal.eq_def]
  dsimp only
  rw [skipWs_cons '[' _ (by rfl)]
  dsimp only
  simp

theorem parseVal_lbrace (f : Nat) (r : List Char) :
    parseVal (f + 1) ('\x7b' :: r) = parseFields f r := by
  rw [parseVal.eq_def]
  dsimp only
  rw [skipWs_cons '\x7b' _ (by rfl)]
  dsimp only
  simp

theorem parseVal_minus (f : Nat) (r : List Char) :
    parseVal (f + 1) ('-' :: r)
      = (match spanDigits r with
        | ([], _) => none
        | (ds, r') => some (Json.num (-(digitsToNat ds : Int)), r')) := by
  rw [parseVal.eq_def]
  dsimp only
  rw [skipWs_cons '-' _ (by rfl)]
  dsimp only
  simp

theorem parseVal_digit (f : Nat) (c : Char) (r : List Char) (h : isDigitC c = true) :
    parseVal (f + 1) (c :: r)
      = some (Json.num (digitsToNat (spanDigits (c :: r)).1), (spanDigits (c :: r)).2) := by
  rw [parseVal.eq_def]
  dsimp only
  rw [skipWs_cons c _ (digit_not_ws h)]
  dsimp only
  rw [if_neg (digit_ne h (by decide)), if_neg (digit_ne h (by decide)),
    if_neg (digit_ne h (by decide)), if_neg (digit_ne h (by decide)),
    if_neg (digit_ne h (by decide)), if_neg (digit_ne h (by decide)),
    if_neg (digit_ne h (by decide)), if_pos h]

theorem parseElems_close (f : Nat) (r : List Char) :
    parseElems (f + 1) (']' :: r) = some (Json.arr [], r) := by
  rw [parseElems.eq_def]
  dsimp only
  rw [skipWs_cons ']' _ (by rfl)]
  dsimp only
  simp

theorem parseElems_step (f : Nat) (c : Char) (r : List Char) (hws : isJsonWs c = false)
    (hne : c ≠ ']') :
    parseElems (f + 1) (c :: r)
      = (match parseVal f (c :: r) with
        | none => none
        | some (j, rest) =>
          match skipWs rest with
          | [] => none
          | c₂ :: rest₂ =>
            if c₂ = ',' then
              (parseElems f rest₂).map
                (fun p => match p.1 with
                  | Json.arr xs => (Json.arr (j :: xs), p.2)
                  | other => (other, p.2))
            else if c₂ = ']' then some (Json.arr [j], rest₂)
            else none) := by
  rw [parseElems.eq_def]
  dsimp only
  rw [skipWs_cons c _ hws]
  dsimp only
  rw [if_neg hne]

theorem parseFields_close (f : Nat) (r : List Char) :
    parseFields (f + 1) ('\x7d' :: r) = some (Json.obj [], r) := by
  rw [parseFields.eq_def]
  dsimp only
  rw [skipWs_cons '\x7d' _ (by rfl)]
  dsimp only
  simp

theorem parseFields_step (f : Nat) (r : List Char) :
    parseFields (f + 1) ('"' :: r)
      = (match parseStrAux r with
        | none => none
        | some (kcs, rest) =>
          match skipWs rest with
          | [] => none
          | c₂ :: rest₂ =>
            if c₂ = ':' then
              match parseVal f rest₂ with
              | none => none
              | some (v, rest₃) =>
                match skipWs rest₃ with
                | [] => none
                | c₄ :: rest₄ =>
                  if c₄ = ',' then
                    (parseFields f rest₄).map
                      (fun p => match p.1 with
                        | Json.obj kvs => (Json.obj ((⟨kcs⟩, v) :: kvs), p.2)
                        | other => (other, p.2))
                  else if c₄ = '\x7d' then some (Json.obj [(⟨kcs⟩, v)], rest₄)
                  else none
            else none) := by
  rw [parseFields.eq_def]
  dsimp only
  rw [skipWs_cons '"' _ (by rfl)]
  dsimp only
  simp

theorem serChars_head : ∀ j : Json, ∃ c t, serChars j = c :: t ∧
    isJsonWs c = false ∧ c ≠ ']' ∧ c ≠ '\x7d' := by
  intro j
  cases j with
  | null => refine ⟨'n', _, rfl, ?_, ?_, ?_⟩ <;> decide
  | bool b =>
    cases b with
    | true => refine ⟨'t', _, rfl, ?_, ?_, ?_⟩ <;> decide
    | false => refine ⟨'f', _, rfl, ?_, ?_, ?_⟩ <;> decide
  | num n =>
    by_cases hn : n < 0
    · refine ⟨'-', natChars n.natAbs, ?_, by decide, by decide, by decide⟩
      simp [serChars, intChars, hn]
    · rcases hc : natChars n.toNat with _ | ⟨c, t⟩
      · exact absurd hc (natChars_ne_nil _)
      · have hd : isDigitC c = true := natChars_digits n.toNat c (by rw [hc]; simp)
        refine ⟨c, t, ?_, digit_not_ws hd, digit_ne hd (by decide),
          digit_ne hd (by decide)⟩
        simp [serChars, intChars, hn, hc]
  | str s => refine ⟨'"', _, rfl, ?_, ?_, ?_⟩ <;> decide
  | arr xs => refine ⟨'[', _, rfl, ?_, ?_, ?_⟩ <;> decide
  | obj kvs => refine ⟨'\x7b', _, rfl, ?_, ?_, ?_⟩ <;> decide

theorem jsize_pos : ∀ j : Json, 1 ≤ jsize j := by
  intro j
  cases j <;> simp [jsize]

theorem jsizeElems_pos : ∀ xs : List Json, 1 ≤ jsizeElems xs := by
  intro xs
  cases xs with
  | nil => simp [jsizeElems]
  | cons x l =>
    have := jsize_pos x
    simp [jsizeElems]
    omega

theorem jsizeFields_pos : ∀ kvs : List (String × Json), 1 ≤ jsizeFields kvs := by
  intro kvs
  cases kvs with
  | nil => simp [jsizeFields]
  | cons kv l =>
    have := jsize_pos kv.2
    simp [jsizeFields]
    omega

theorem parse_rt : ∀ f : Nat,
    (∀ (j : Json) (r : List Char), jsize j ≤ f →
      (∀ c, r.head? = some c → isDigitC c = false) →
      parseVal f (serChars j ++ r) = some (j, r)) ∧
    (∀ (xs : List Json) (r : List Char), jsizeElems xs ≤ f →
      parseElems f (serElemsChars xs ++ ']' :: r) = some (Json.arr xs, r)) ∧
    (∀ (kvs : List (String × Json)) (r : List Char), jsizeFields kvs ≤ f →
      parseFields f (serFieldsChars kvs ++ '\x7d' :: r) = some (Json.obj kvs, r)) := by
  intro f
  induction f with
  | zero =>
    refine ⟨?_, ?_, ?_⟩
    · intro j r hsz _
      have := jsize_pos j
      omega
    · intro xs r hsz
      have := jsizeElems_pos xs
      omega
    · intro kvs r hsz
      have := jsizeFields_pos kvs
      omega
  | succ f ih =>
    obtain ⟨ihv, ihe, ihf⟩ := ih
    refine ⟨?_, ?_, ?_⟩
    · intro j r hsz hr
      cases j with
      | null => exact parseVal_null f r
      | bool b =>
        cases b with
        | true => exact parseVal_true f r
        | false => exact parseVal_false f r
      | num n =>
        by_cases hn : n < 0
        · have hser : serChars (Json.num n) ++ r = '-' :: (natChars n.natAbs ++ r) := by
            simp [serChars, intChars, hn]
          rw [hser, parseVal_minus]
          rcases hnc : natChars n.natAbs with _ | ⟨c, cs⟩
          · exact absurd hnc (natChars_ne_nil _)
          have hspan : spanDigits (natChars n.natAbs ++ r) = (natChars n.natAbs, r) :=
            spanDigits_append _ _ (natChars_digits _) hr
          rw [hnc] at hspan
          rw [hspan]
          dsimp only
          have hd : digitsToNat (c :: cs) = n.natAbs := by
            rw [← hnc, digitsToNat_natChars]
          rw [hd, show -(n.natAbs : Int) = n by omega]
        · rcases hnc : natChars n.toNat with _ | ⟨c, cs⟩
          · exact absurd hnc (natChars_ne_nil _)
          have hd : isDigitC c = true := natChars_digits n.toNat c (by rw [hnc]; simp)
          have hser : serChars (Json.num n) ++ r = c :: (cs ++ r) := by
            simp [serChars, intChars, hn, hnc]
          rw [hser, parseVal_digit f c _ hd]
          have hspan : spanDigits (c :: (cs ++ r)) = (c :: cs, r) := by
            have h0 := spanDigits_append (natChars n.toNat) r (natChars_digits _) hr
            rw [hnc] at h0
            simpa using h0
          rw [hspan]
          dsimp only
          have hdn : digitsToNat (c :: cs) = n.toNat := by
            rw [← hnc, digitsToNat_natChars]
          rw [hdn, Int.toNat_of_nonneg (by omega)]
      | str s =>
        have hser : serChars (Json.str s) ++ r
            = '"' :: (concatMapF escChar s.data ++ '"' :: r) := by
          simp [serChars]
        rw [hser, parseVal_quote, parseStrAux_rt]
        rfl
      | arr xs =>
        have hser : serChars (Json.arr xs) ++ r = '[' :: (serElemsChars xs ++ ']' :: r) := by
          simp [serChars]
        rw [hser, parseVal_lbrack]
        refine ihe xs r ?_
        simp only [jsize] at hsz
        omega
      | obj kvs =>
        have hser : serChars (Json.obj kvs) ++ r
            = '\x7b' :: (serFieldsChars kvs ++ '\x7d' :: r) := by
          simp [serChars]
        rw [hser, parseVal_lbrace]
        refine ihf kvs r ?_
        simp only [jsize] at hsz
        omega
    · intro xs r hsz
      cases xs with
      | nil => exact parseElems_close f r
      | cons x xs' =>
        obtain ⟨c, t, hct, hws, hbr, _⟩ := serChars_head x
        cases xs' with
        | nil =>
          have hser : serElemsChars [x] ++ ']' :: r = c :: (t ++ ']' :: r) := by
            simp [serElemsChars, hct]
          rw [hser, parseElems_step f c _ hws hbr]
          have hszx : jsize x ≤ f := by
            simp only [jsizeElems] at hsz
            omega
          have hv : parseVal f (c :: (t ++ ']' :: r)) = some (x, ']' :: r) := by
            have h0 := ihv x (']' :: r) hszx
              (by intro c' hc'
                  simp only [List.head?_cons, Option.some.injEq] at hc'
                  subst hc'
                  decide)
            rw [hct] at h0
            simpa using h0
          rw [hv]
          dsimp only
          rw [skipWs_cons ']' _ (by rfl)]
          dsimp only
          simp
        | cons y ys =>
          have hser : serElemsChars (x :: y :: ys) ++ ']' :: r
              = c :: (t ++ ',' :: (serElemsChars (y :: ys) ++ ']' :: r)) := by
            simp [serElemsChars, hct]
          rw [hser, parseElems_step f c _ hws hbr]
          have hszx : jsize x ≤ f := by
            simp only [jsizeElems] at hsz
            have := jsize_pos y
            have := jsizeElems_pos ys
            omega
          have hszr : jsizeElems (y :: ys) ≤ f := by
            simp only [jsizeElems] at hsz ⊢
            have := jsize_pos x
            omega
          have hv : parseVal f (c :: (t ++ ',' :: (serElemsChars (y :: ys) ++ ']' :: r)))
              = some (x, ',' :: (serElemsChars (y :: ys) ++ ']' :: r)) := by
            have h0 := ihv x (',' :: (serElemsChars (y :: ys) ++ ']' :: r)) hszx
              (by intro c' hc'
                  simp only [List.head?_cons, Option.some.injEq] at hc'
                  subst hc'
                  decide)
            rw [hct] at h0
            simpa using h0
          rw [hv]
          dsimp only
          rw [skipWs_cons ',' _ (by rfl)]
          dsimp only
          rw [ihe (y :: ys) r hszr]
          simp
    · intro kvs r hsz
      cases kvs with
      | nil => exact parseFields_close f r
      | cons kv kvs' =>
        obtain ⟨k, v⟩ := kv
        cases kvs' with
        | nil =>
          have hser : serFieldsChars [(k, v)] ++ '\x7d' :: r
              = '"' :: (concatMapF escChar k.data
                  ++ '"' :: (':' :: (serChars v ++ '\x7d' :: r))) := by
            simp [serFieldsChars]
          rw [hser, parseFields_step, parseStrAux_rt]
          dsimp only
          rw [skipWs_cons ':' _ (by rfl)]
          dsimp only
          have hszv : jsize v ≤ f := by
            simp only [jsizeFields] at hsz
            omega
          rw [ihv v ('\x7d' :: r) hszv
            (by intro c' hc'
                simp only [List.head?_cons, Option.some.injEq] at hc'
                subst hc'
                decide)]
          dsimp only
          rw [skipWs_cons '\x7d' _ (by rfl)]
          dsimp only
          simp
        | cons kv₂ rest =>
          have hser : serFieldsChars ((k, v) :: kv₂ :: rest) ++ '\x7d' :: r
              = '"' :: (concatMapF escChar k.data
                  ++ '"' :: (':' :: (serChars v
                      ++ ',' :: (serFieldsChars (kv₂ :: rest) ++ '\x7d' :: r)))) := by
            simp [serFieldsChars]
          rw [hser, parseFields_step, parseStrAux_rt]
          dsimp only
          rw [skipWs_cons ':' _ (by rfl)]
          dsimp only
          have hszv : jsize v ≤ f := by
            simp only [jsizeFields] at hsz
            have := jsize_pos kv₂.2
            have := jsizeFields_pos rest
            omega
          have hszr : jsizeFields (kv₂ :: rest) ≤ f := by
            simp only [jsizeFields] at hsz ⊢
            have := jsize_pos v
            omega
          rw [ihv v (',' :: (serFieldsChars (kv₂ :: rest) ++ '\x7d' :: r)) hszv
            (by intro c' hc'
                simp only [List.head?_cons, Option.some.injEq] at hc'
                subst hc'
                decide)]
          dsimp only
          rw [skipWs_cons ',' _ (by rfl)]
          dsimp only
          rw [ihf (kv₂ :: rest) r hszr]
          simp

theorem serChars_inj (j₁ j₂ : Json) (h : serChars j₁ = serChars j₂) : j₁ = j₂ := by
  have h₁ := (parse_rt (max (jsize j₁) (jsize j₂))).1 j₁ [] (le_max_left _ _)
    (by intro c hc; simp at hc)
  have h₂ := (parse_rt (max (jsize j₁) (jsize j₂))).1 j₂ [] (le_max_right _ _)
    (by intro c hc; simp at hc)
  rw [List.append_nil] at h₁ h₂
  rw [h, h₂] at h₁
  have := (Option.some.injEq _ _).mp h₁
  exact (Prod.ext_iff.mp this.symm).1

theorem serJson_inj (j₁ j₂ : Json) (h : serJson j₁ = serJson j₂) : j₁ = j₂ := by
  refine serChars_inj j₁ j₂ ?_
  have := congrArg String.data h
  simpa [serJson] using this

/-! ### C5, part 4: the subscription key builder -/

theorem sIns_ne_nil {α : Type} (kv : String × α) (acc : List (String × α)) :
    sIns kv acc ≠ [] := by
  cases acc with
  | nil => simp [sIns]
  | cons x xs =>
    simp only [sIns]
    split
    · simp
    · split <;> simp

theorem foldl_sIns_ne_nil {α : Type} :
    ∀ (l : List (String × α)) (acc : List (String × α)), acc ≠ [] →
      l.foldl (fun acc kv => sIns kv acc) acc ≠ [] := by
  intro l
  induction l with
  | nil => intro acc h; simpa using h
  | cons kv rest ih =>
    intro acc _
    simp only [List.foldl_cons]
    exact ih (sIns kv acc) (sIns_ne_nil kv acc)

theorem canonMap_ne_nil {α : Type} (l : List (String × α)) (h : l ≠ []) :
    canonMap l ≠ [] := by
  cases l with
  | nil => exact absurd rfl h
  | cons kv rest =>
    simp only [canonMap, List.foldl_cons]
    exact foldl_sIns_ne_nil rest (sIns kv []) (by simp [sIns])

theorem isEmpty_false_of_ne_nil {α : Type} {l : List α} (h : l ≠ []) : l.isEmpty = false := by
  cases l with
  | nil => exact absurd rfl h
  | cons a r => rfl

theorem optionsObj_nil_nil : optionsObj [] [] = [] := rfl

theorem optionsObj_q (q : List (String × Json)) (hq : q ≠ []) :
    optionsObj q [] = [("query", Json.obj (canonMap q))] := by
  simp [optionsObj, isEmpty_false_of_ne_nil hq, canonMap, sIns]

theorem optionsObj_h (h : List (String × String)) (hh : h ≠ []) :
    optionsObj [] h = [("headers", Json.obj (canonMap (headerJson h)))] := by
  simp [optionsObj, isEmpty_false_of_ne_nil hh, canonMap, sIns]

theorem canonMap_pair_swap {α : Type} (a b : String × α)
    (h : lexLt b.1.data a.1.data = true) : canonMap [a, b] = [b, a] := by
  show sIns b (sIns a []) = [b, a]
  rw [sIns_nil, sIns_cons_lt b a [] h]

theorem optionsObj_qh (q : List (String × Json)) (h : List (String × String))
    (hq : q ≠ []) (hh : h ≠ []) :
    optionsObj q h = [("headers", Json.obj (canonMap (headerJson h))),
      ("query", Json.obj (canonMap q))] := by
  have hlt : lexLt ("headers" : String).data ("query" : String).data = true := by decide
  simp only [optionsObj, isEmpty_false_of_ne_nil hq, isEmpty_false_of_ne_nil hh,
    Bool.false_eq_true, if_false, List.cons_append, List.nil_append]
  exact canonMap_pair_swap ("query", Json.obj (canonMap q))
    ("headers", Json.obj (canonMap (headerJson h))) hlt

theorem optionsObj_eq_nil_iff (q : List (String × Json)) (h : List (String × String)) :
    optionsObj q h = [] ↔ q = [] ∧ h = [] := by
  constructor
  · intro he
    by_cases hq : q = [] <;> by_cases hh : h = []
    · exact ⟨hq, hh⟩
    · subst hq
      rw [optionsObj_h h hh] at he
      cases he
    · subst hh
      rw [optionsObj_q q hq] at he
      cases he
    · rw [optionsObj_qh q h hq hh] at he
      cases he
  · rintro ⟨rfl, rfl⟩
    rfl

theorem bsk_empty (topic : String) : buildSubscriptionKey topic [] [] = topic := rfl

theorem bsk_nonempty (topic : String) (q : List (String × Json))
    (h : List (String × String)) (hne : ¬(q = [] ∧ h = [])) :
    buildSubscriptionKey topic q h
      = topic ++ (if topic.data.contains '?' then "&" else "?")
          ++ ("options=" ++ urlencode (serJson (Json.obj (optionsObj q h)))) := by
  have hopt : (optionsObj q h).isEmpty = false :=
    isEmpty_false_of_ne_nil (fun he => hne ((optionsObj_eq_nil_iff q h).mp he))
  simp only [buildSubscriptionKey, hopt, Bool.false_eq_true, if_false]
  split <;> rfl

theorem sIns_headerJson (kv : String × String) (l : List (String × String)) :
    sIns (kv.1, Json.str kv.2) (headerJson l) = headerJson (sIns kv l) := by
  induction l with
  | nil => rfl
  | cons x xs ih =>
    simp only [headerJson, List.map_cons, sIns]
    split
    · simp [headerJson]
    · split
      · simp [headerJson]
      · simp only [headerJson, List.map_cons] at ih ⊢
        rw [ih]

theorem canonFold_headerJson : ∀ (l acc : List (String × String)),
    (headerJson l).foldl (fun a kv => sIns kv a) (headerJson acc)
      = headerJson (l.foldl (fun a kv => sIns kv a) acc) := by
  intro l
  induction l with
  | nil => intro acc; rfl
  | cons x xs ih =>
    intro acc
    simp only [headerJson, List.map_cons, List.foldl_cons]
    have hx := sIns_headerJson x acc
    simp only [headerJson] at hx ⊢
    rw [hx]
    exact ih (sIns x acc)

theorem canonMap_headerJson (h : List (String × String)) :
    canonMap (headerJson h) = headerJson (canonMap h) := by
  have := canonFold_headerJson h []
  simpa [canonMap, headerJson] using this

theorem headerJson_inj (l₁ l₂ : List (String × String)) (h : headerJson l₁ = headerJson l₂) :
    l₁ = l₂ := by
  induction l₁ generalizing l₂ with
  | nil =>
    cases l₂ with
    | nil => rfl
    | cons x xs => simp [headerJson] at h
  | cons x xs ih =>
    cases l₂ with
    | nil => simp [headerJson] at h
    | cons y ys =>
      simp only [headerJson, List.map_cons, List.cons.injEq, Prod.ext_iff,
        Json.str.injEq] at h
      obtain ⟨⟨h1, h2⟩, h3⟩ := h
      have := ih ys (by simpa [headerJson] using h3)
      rw [this]
      congr 1
      exact Prod.ext_iff.mpr ⟨h1, h2⟩

theorem optionsObj_inj (q₁ q₂ : List (String × Json)) (h₁ h₂ : List (String × String))
    (hO : optionsObj q₁ h₁ = optionsObj q₂ h₂) :
    canonMap q₁ = canonMap q₂ ∧ canonMap h₁ = canonMap h₂ := by
  rcases eq_or_ne q₁ [] with rfl | hq₁ <;> rcases eq_or_ne h₁ [] with rfl | hh₁ <;>
    rcases eq_or_ne q₂ [] with rfl | hq₂ <;> rcases eq_or_ne h₂ [] with rfl | hh₂
  · exact ⟨rfl, rfl⟩
  · rw [optionsObj_nil_nil, optionsObj_h h₂ hh₂] at hO
    cases hO
  · rw [optionsObj_nil_nil, optionsObj_q q₂ hq₂] at hO
    cases hO
  · rw [optionsObj_nil_nil, optionsObj_qh q₂ h₂ hq₂ hh₂] at hO
    cases hO
  · rw [optionsObj_h h₁ hh₁, optionsObj_nil_nil] at hO
    cases hO
  · rw [optionsObj_h h₁ hh₁, optionsObj_h h₂ hh₂] at hO
    simp at hO
    rw [canonMap_headerJson, canonMap_headerJson] at hO
    exact ⟨rfl, headerJson_inj _ _ hO⟩
  · rw [optionsObj_h h₁ hh₁, optionsObj_q q₂ hq₂] at hO
    simp at hO
  · rw [optionsObj_h h₁ hh₁, optionsObj_qh q₂ h₂ hq₂ hh₂] at hO
    simp at hO
  · rw [optionsObj_q q₁ hq₁, optionsObj_nil_nil] at hO
    cases hO
  · rw [optionsObj_q q₁ hq₁, optionsObj_h h₂ hh₂] at hO
    simp at hO
  · rw [optionsObj_q q₁ hq₁, optionsObj_q q₂ hq₂] at hO
    simp at hO
    exact ⟨hO, rfl⟩
  · rw [optionsObj_q q₁ hq₁, optionsObj_qh q₂ h₂ hq₂ hh₂] at hO
    simp at hO
  · rw [optionsObj_qh q₁ h₁ hq₁ hh₁, optionsObj_nil_nil] at hO
    cases hO
  · rw [optionsObj_qh q₁ h₁ hq₁ hh₁, optionsObj_h h₂ hh₂] at hO
    simp at hO
  · rw [optionsObj_qh q₁ h₁ hq₁ hh₁, optionsObj_q q₂ hq₂] at hO
    simp at hO
  · rw [optionsObj_qh q₁ h₁ hq₁ hh₁, optionsObj_qh q₂ h₂ hq₂ hh₂] at hO
    simp at hO
    obtain ⟨hh, hq⟩ := hO
    rw [canonMap_headerJson, canonMap_headerJson] at hh
    exact ⟨hq, headerJson_inj _ _ hh⟩

theorem bsk_inj (topic : String) (q₁ q₂ : List (String × Json)) (h₁ h₂ : List (String × String))
    (heq : buildSubscriptionKey topic q₁ h₁ = buildSubscriptionKey topic q₂ h₂) :
    canonMap q₁ = canonMap q₂ ∧ canonMap h₁ = canonMap h₂ := by
  by_cases E₁ : q₁ = [] ∧ h₁ = [] <;> by_cases E₂ : q₂ = [] ∧ h₂ = []
  · obtain ⟨rfl, rfl⟩ := E₁
    obtain ⟨rfl, rfl⟩ := E₂
    exact ⟨rfl, rfl⟩
  · exfalso
    obtain ⟨rfl, rfl⟩ := E₁
    rw [bsk_empty, bsk_nonempty topic q₂ h₂ E₂] at heq
    have hlen := congrArg String.length heq
    simp only [String.length_append] at hlen
    split at hlen <;>
      simp only [show ("&" : String).length = 1 from rfl,
        show ("?" : String).length = 1 from rfl,
        show ("options=" : String).length = 8 from rfl] at hlen <;> omega
  · exfalso
    obtain ⟨rfl, rfl⟩ := E₂
    rw [bsk_empty, bsk_nonempty topic q₁ h₁ E₁] at heq
    have hlen := congrArg String.length heq
    simp only [String.length_append] at hlen
    split at hlen <;>
      simp only [show ("&" : String).length = 1 from rfl,
        show ("?" : String).length = 1 from rfl,
        show ("options=" : String).length = 8 from rfl] at hlen <;> omega
  · rw [bsk_nonempty topic q₁ h₁ E₁, bsk_nonempty topic q₂ h₂ E₂] at heq
    have hd := congrArg String.data heq
    simp only [String.data_append, List.append_assoc] at hd
    have hd₁ := List.append_cancel_left hd
    have hd₂ := List.append_cancel_left hd₁
    have hd₃ := List.append_cancel_left hd₂
    have hu : urlencode (serJson (Json.obj (optionsObj q₁ h₁)))
        = urlencode (serJson (Json.obj (optionsObj q₂ h₂))) := by
      cases hue₁ : urlencode (serJson (Json.obj (optionsObj q₁ h₁)))
      cases hue₂ : urlencode (serJson (Json.obj (optionsObj q₂ h₂)))
      rw [hue₁, hue₂] at hd₃
      exact congrArg String.mk (by simpa using hd₃)
    have hs := urlencode_inj _ _ hu
    have hj := serJson_inj _ _ hs
    injection hj with hO
    exact optionsObj_inj q₁ q₂ h₁ h₂ hO

theorem bsk_stable (topic : String) (q₁ q₂ : List (String × Json))
    (h₁ h₂ : List (String × String))
    (hqp : q₁.Perm q₂) (hqd : (q₁.map Prod.fst).Nodup)
    (hhp : h₁.Perm h₂) (hhd : (h₁.map Prod.fst).Nodup) :
    buildSubscriptionKey topic q₁ h₁ = buildSubscriptionKey topic q₂ h₂ := by
  have hq : canonMap q₁ = canonMap q₂ := canonMap_perm _ _ hqp hqd
  have hh : canonMap (headerJson h₁) = canonMap (headerJson h₂) := by
    refine canonMap_perm _ _ (hhp.map _) ?_
    have : (headerJson h₁).map Prod.fst = h₁.map Prod.fst := by
      simp [headerJson, List.map_map, Function.comp]
    rw [this]
    exact hhd
  have hqe : q₁.isEmpty = q₂.isEmpty := by
    cases q₁ <;> cases q₂ <;> first | rfl | (exact absurd hqp.length_eq (by simp))
  have hhe : h₁.isEmpty = h₂.isEmpty := by
    cases h₁ <;> cases h₂ <;> first | rfl | (exact absurd hhp.length_eq (by simp))
  simp only [buildSubscriptionKey, optionsObj]
  rw [hqe, hhe, hq, hh]

/-- C5 counterexample: for a topic that already contains `'?'` (here `"a?b"`)
and a non-empty query map, `build_subscription_key` appends `"&options=..."`,
not the `"?options=..."` form the specification states: the key differs from
the bare topic and its fourth character is `'&'`, not `'?'`. -/
theorem C5_counterexample_amp_separator :
    buildSubscriptionKey "a?b" [("x", Json.str "1")] []
      = "a?b" ++ "&" ++ ("options=" ++ urlencode (serJson (Json.obj
          (optionsObj [("x", Json.str "1")] []))))
    ∧ buildSubscriptionKey "a?b" [("x", Json.str "1")] [] ≠ "a?b"
    ∧ (buildSubscriptionKey "a?b" [("x", Json.str "1")] []).data.get? 3 = some '&' := by
  have hk := bsk_nonempty "a?b" [("x", Json.str "1")] [] (by simp)
  rw [if_pos (show ("a?b" : String).data.contains '?' = true from by decide)] at hk
  refine ⟨hk, ?_, ?_⟩
  · intro hC
    rw [hk] at hC
    have hlen := congrArg String.length hC
    simp only [String.length_append] at hlen
    simp only [show ("&" : String).length = 1 from rfl,
      show ("options=" : String).length = 8 from rfl] at hlen
    omega
  · rw [hk]
    rfl

/-- C5 (amended): for a fixed topic, `build_subscription_key` is injective in
the canonical (BTreeMap) contents of the query and header maps; it is stable
under re-ordering of the input maps (whose keys, coming from `HashMap`s, are
distinct); and the key is the bare topic exactly when both maps are empty,
otherwise `topic ++ sep ++ "options=" ++ urlencode(json)` where `sep` is `"?"`
— or `"&"` when the topic already contains `'?'` — and the serialized object
holds `query` and/or `headers` sub-objects exactly for the non-empty maps. -/
theorem C5_amended_key_builder (topic : String) (q₁ q₂ : List (String × Json))
    (h₁ h₂ : List (String × String)) :
    (buildSubscriptionKey topic q₁ h₁ = buildSubscriptionKey topic q₂ h₂ →
      canonMap q₁ = canonMap q₂ ∧ canonMap h₁ = canonMap h₂)
    ∧ (q₁.Perm q₂ → (q₁.map Prod.fst).Nodup → h₁.Perm h₂ → (h₁.map Prod.fst).Nodup →
      buildSubscriptionKey topic q₁ h₁ = buildSubscriptionKey topic q₂ h₂)
    ∧ (q₁ = [] → h₁ = [] → buildSubscriptionKey topic q₁ h₁ = topic)
    ∧ (¬(q₁ = [] ∧ h₁ = []) →
      buildSubscriptionKey topic q₁ h₁
        = topic ++ (if topic.data.contains '?' then "&" else "?")
            ++ ("options=" ++ urlencode (serJson (Json.obj (optionsObj q₁ h₁)))))
    ∧ (q₁ = [] ∧ h₁ = [] → optionsObj q₁ h₁ = [])
    ∧ (q₁ ≠ [] → h₁ = [] → optionsObj q₁ h₁ = [("query", Json.obj (canonMap q₁))])
    ∧ (q₁ = [] → h₁ ≠ [] →
      optionsObj q₁ h₁ = [("headers", Json.obj (canonMap (headerJson h₁)))])
    ∧ (q₁ ≠ [] → h₁ ≠ [] →
      optionsObj q₁ h₁ = [("headers", Json.obj (canonMap (headerJson h₁))),
        ("query", Json.obj (canonMap q₁))]) := by
  refine ⟨bsk_inj topic q₁ q₂ h₁ h₂, bsk_stable topic q₁ q₂ h₁ h₂, ?_, bsk_nonempty topic q₁ h₁,
    ?_, ?_, ?_, fun hq hh => optionsObj_qh q₁ h₁ hq hh⟩
  · rintro rfl rfl
    exact bsk_empty topic
  · rintro ⟨rfl, rfl⟩
    rfl
  · rintro hq rfl
    exact optionsObj_q q₁ hq
  · rintro rfl hh
    exact optionsObj_h h₁ hh

theorem C5_amended_key_builder_witness :
    buildSubscriptionKey "t" [("a", Json.num 1), ("b", Json.num 2)] [("k", "v")]
      = buildSubscriptionKey "t" [("b", Json.num 2), ("a", Json.num 1)] [("k", "v")]
    ∧ buildSubscriptionKey "t" [] [] = "t"
    ∧ optionsObj [("a", Json.num 1), ("b", Json.num 2)] [("k", "v")]
      = [("headers", Json.obj [("k", Json.str "v")]),
        ("query", Json.obj [("a", Json.num 1), ("b", Json.num 2)])] := by
  refine ⟨(C5_amended_key_builder "t" [("a", Json.num 1), ("b", Json.num 2)]
      [("b", Json.num 2), ("a", Json.num 1)] [("k", "v")] [("k", "v")]).2.1
      (List.Perm.swap _ _ _) (by decide) (List.Perm.refl _) (by decide), ?_, ?_⟩
  · exact (C5_amended_key_builder "t" [] [] [] []).2.2.1 rfl rfl
  · have := (C5_amended_key_builder "t" [("a", Json.num 1), ("b", Json.num 2)] []
      [("k", "v")] []).2.2.2.2.2.2.2 (by simp) (by simp)
    rw [this]
    rfl
